import Mathlib

/-!
Verification of the oath promise library (src/lib/oath.js).

The source implements a small future/promise core:
  * three runtime status tags (`waiting`, `resolved`, `rejected`, line 10 of
    the source; at runtime the latter two are the constructor functions of
    lines 220-227, which shadow the line-10 objects -- all status reads and
    writes execute after module load, so the three tags stay pairwise
    distinct objects compared by identity),
  * `Promise.prototype.then` / `catch` / `fulfill` / `abandon` (lines 28-141),
  * `Deferred.resolve` / `Deferred.reject` (lines 159-171) and `defer`
    (lines 176-179),
  * the already-settled constructors `resolved` / `rejected` (lines 220-227),
  * `failable` and `promisify` (lines 183-217).

The embedding is a fueled interpreter over an explicit store of promise
records.  User continuations (the functions handed to `.then` / `.catch`)
are deep-embedded as `Prog` values so that everything a continuation can do
to the store goes through the public API of the library, exactly as in the
JavaScript source.  A `note` instruction writes to an observation log; it
models a test spy and changes nothing about the promise store.  Falsy
continuation arguments (such as `undefined`) are modelled by `none`, because
every guard and every invocation site in the source tests the truthiness of
the stored field (`if (this.owed)`, `if (this.onFail)`, `if (_failure)`).
-/

/-- The three runtime status tags of src/lib/oath.js line 10 (after module
load the `resolved` and `rejected` bindings hold the constructor functions of
lines 220-227; they remain three pairwise distinct objects compared with
`===`). -/
inductive Status where
  | waiting
  | resolved
  | rejected
  deriving DecidableEq, Repr

/-- JavaScript values that can flow through the library: primitives, promise
references, and the module-level status tag objects themselves (the `resolved`
and `rejected` tags are exported by the module, so user code can hold them). -/
inductive JSVal where
  | undef
  | nullV
  | boolV (b : Bool)
  | num (n : Int)
  | str (s : String)
  | prom (pid : Nat)
  | statusTag (t : Status)
  deriving DecidableEq, Repr

/-- JavaScript truthiness of the embedded values. -/
def JSVal.truthy : JSVal → Bool
  | .undef => false
  | .nullV => false
  | .boolV b => b
  | .num n => n != 0
  | .str s => s != ""
  | .prom _ => true
  | .statusTag _ => true

/-- The `this.value && this.value.then` test of source line 102: among the
embedded values exactly the promise references are truthy and expose a `then`
method.  Returns the referenced promise when the test succeeds. -/
def JSVal.asProm : JSVal → Option Nat
  | .prom pid => some pid
  | _ => none

/-- Deep embedding of the code a user continuation may run: every store
effect goes through the public API of the library (registration, settlement,
construction), plus `note`, which appends to an observation log (a test spy)
and touches no promise.  `ret` is the return value of the continuation. -/
inductive Prog where
  | ret (v : JSVal)
  | note (tag : Nat) (v : JSVal) (k : Prog)
  | newDefer (k : Nat → Prog)
  | newResolved (v : JSVal) (k : Nat → Prog)
  | newRejected (v : JSVal) (k : Nat → Prog)
  | doThen (pid : Nat) (s : JSVal → Prog) (k : Nat → Prog)
  | doThen2 (pid : Nat) (s : JSVal → Prog) (f : JSVal → Prog) (k : Nat → Prog)
  | doThenNil (pid : Nat) (k : Nat → Prog)
  | doCatch (pid : Nat) (f : JSVal → Prog) (k : Prog)
  | doCatchNil (pid : Nat) (k : Prog)
  | doResolve (pid : Nat) (v : JSVal) (k : Prog)
  | doReject (pid : Nat) (v : JSVal) (k : Prog)

/-- A JavaScript function value stored as a continuation. -/
abbrev ContFn := JSVal → Prog

/-- A test spy: logs its argument under `tag` and returns it (models
`x => x` instrumented for observation). -/
def spyFn (tag : Nat) : ContFn := fun v => .note tag v (.ret v)

/-- The bound method `deferred.resolve` of the deferred owning promise `pid`
(source lines 152 and 159-162), as passed on source line 105. -/
def resolveDFn (pid : Nat) : ContFn := fun v => .doResolve pid v (.ret .undef)

/-- The bound method `deferred.reject` of the deferred owning promise `pid`
(source lines 152 and 168-171), as passed on source line 110. -/
def rejectDFn (pid : Nat) : ContFn := fun v => .doReject pid v (.ret .undef)

/-- A continuation `_ => p` returning an existing promise. -/
def constPromFn (pid : Nat) : ContFn := fun _ => .ret (.prom pid)

/-- One promise record: the fields assigned by the `Promise` constructor
(source lines 15-23) and by `then` / `catch` (`owed`, `next`, `onFail`).
Absent/falsy stored continuations are `none`. -/
structure PromObj where
  value : JSVal
  status : Status
  owed : Option ContFn
  next : Option Nat
  onFail : Option ContFn

/-- The record built by `new Promise()` (no arguments): value `undefined`,
status `waiting`, no continuations, no next. -/
def PromObj.init : PromObj :=
  { value := .undef, status := .waiting, owed := none, next := none, onFail := none }

/-- The whole mutable world: the allocated promises (a promise reference is
an index into this list) plus the observation log. -/
structure St where
  proms : List PromObj
  log : List (Nat × JSVal)

/-- Field read through a promise reference. -/
def getProm (st : St) (pid : Nat) : Option PromObj := st.proms[pid]?

/-- Replace the record of promise `pid`. -/
def setProm (st : St) (pid : Nat) (p : PromObj) : St :=
  { st with proms := st.proms.set pid p }

/-- Mutate one field of promise `pid` (no-op on a dangling reference; the
interpreter always reads the record first). -/
def modProm (st : St) (pid : Nat) (f : PromObj → PromObj) : St :=
  match st.proms[pid]? with
  | some p => setProm st pid (f p)
  | none => st

/-- Allocate a fresh promise record, returning its reference. -/
def allocProm (st : St) (p : PromObj) : Nat × St :=
  (st.proms.length, { st with proms := st.proms ++ [p] })

/-- Append an observation to the log. -/
def pushLog (st : St) (e : Nat × JSVal) : St := { st with log := st.log ++ [e] }

/-- `defer()` (source lines 176-179): a fresh `Waiting` promise wrapped in a
deferred.  The deferred is identified with its promise reference, since its
two methods just forward to `fulfill` / `abandon` without the force flag. -/
def defer (st : St) : Nat × St := allocProm st PromObj.init

/-- `resolved(value)` (source lines 220-222): `new Promise(value, resolved)`,
an already-resolved promise holding `value`. -/
def resolved (v : JSVal) (st : St) : Nat × St :=
  allocProm st { value := v, status := .resolved, owed := none, next := none, onFail := none }

/-- `rejected(error)` (source lines 225-227): `new Promise(error, rejected)`,
an already-rejected promise holding `error`. -/
def rejected (v : JSVal) (st : St) : Nat × St :=
  allocProm st { value := v, status := .rejected, owed := none, next := none, onFail := none }

/-- Errors: `usage` is a thrown `new Error(msg)`; `typeErr` models a
JavaScript TypeError (property access on `undefined`); `outOfFuel` is the
interpreter running out of fuel (never raised by the source itself). -/
inductive JErr where
  | usage (msg : String)
  | typeErr
  | outOfFuel
  deriving DecidableEq, Repr

def thenTwiceMsg : String := "Tried to then a promise twice."
def catchTwiceMsg : String := "Tried to catch a promise twice."
def fulfillTwiceMsg : String := "Tried to fulfill a promise twice."
def abandonTwiceMsg : String := "Tried to abandon a promise twice."

mutual

/-- Run an embedded user program.  Each `do...` instruction is one public
API call of the library; the API calls in turn may run further user code. -/
def runProg : Nat → Prog → St → Except JErr (JSVal × St)
  | 0, _, _ => .error .outOfFuel
  | fuel+1, pr, st =>
    match pr with
    | .ret v => .ok (v, st)
    | .note tag v k => runProg fuel k (pushLog st (tag, v))
    | .newDefer k => runProg fuel (k (defer st).1) (defer st).2
    | .newResolved v k => runProg fuel (k (resolved v st).1) (resolved v st).2
    | .newRejected v k => runProg fuel (k (rejected v st).1) (rejected v st).2
    | .doThen pid s k =>
      match thenFn fuel pid (some s) none st with
      | .error e => .error e
      | .ok (n, st1) => runProg fuel (k n) st1
    | .doThen2 pid s f k =>
      match thenFn fuel pid (some s) (some f) st with
      | .error e => .error e
      | .ok (n, st1) => runProg fuel (k n) st1
    | .doThenNil pid k =>
      match thenFn fuel pid none none st with
      | .error e => .error e
      | .ok (n, st1) => runProg fuel (k n) st1
    | .doCatch pid f k =>
      match catchFn fuel pid (some f) st with
      | .error e => .error e
      | .ok (_, st1) => runProg fuel k st1
    | .doCatchNil pid k =>
      match catchFn fuel pid none st with
      | .error e => .error e
      | .ok (_, st1) => runProg fuel k st1
    | .doResolve pid v k =>
      match fulfill fuel pid v false st with
      | .error e => .error e
      | .ok (_, st1) => runProg fuel k st1
    | .doReject pid v k =>
      match abandon fuel pid v false st with
      | .error e => .error e
      | .ok (_, st1) => runProg fuel k st1

termination_by structural fuel _ _ => fuel

/-- `Promise.prototype.then` (source lines 28-55).  Throws on a truthy
stored `owed`; stores `success`; creates the next deferred; if the status is
the `resolved` tag, force-fulfills with the stored value; registers the
failure argument via `catch` when truthy; returns `this.next.promise`
(re-read from the store, as the source re-reads the field). -/
def thenFn : Nat → Nat → Option ContFn → Option ContFn → St → Except JErr (Nat × St)
  | 0, _, _, _, _ => .error .outOfFuel
  | fuel+1, pid, success, failure, st =>
    match getProm st pid with
    | none => .error .typeErr
    | some p =>
      if p.owed.isSome then .error (.usage thenTwiceMsg)
      else
        let st1 := modProm st pid fun q => { q with owed := success }
        let nid := st1.proms.length
        let st3 := modProm (allocProm st1 PromObj.init).2 pid fun q => { q with next := some nid }
        match getProm st3 pid with
        | none => .error .typeErr
        | some p3 =>
          match (if p3.status = Status.resolved then fulfill fuel pid p3.value true st3
                 else .ok ((), st3)) with
          | .error e => .error e
          | .ok (_, st4) =>
            match (match failure with
                   | some fc => catchFn fuel pid (some fc) st4
                   | none => .ok ((), st4)) with
            | .error e => .error e
            | .ok (_, st5) =>
              match getProm st5 pid with
              | none => .error .typeErr
              | some p5 =>
                match p5.next with
                | some n => .ok (n, st5)
                | none => .error .typeErr

termination_by structural fuel _ _ _ _ => fuel

/-- `Promise.prototype.catch` (source lines 62-78).  Throws on a truthy
stored `onFail`; stores `failure`; if the status is the `rejected` tag,
force-abandons with the stored value. -/
def catchFn : Nat → Nat → Option ContFn → St → Except JErr (Unit × St)
  | 0, _, _, _ => .error .outOfFuel
  | fuel+1, pid, failure, st =>
    match getProm st pid with
    | none => .error .typeErr
    | some p =>
      if p.onFail.isSome then .error (.usage catchTwiceMsg)
      else
        let st1 := modProm st pid fun q => { q with onFail := failure }
        if p.status = Status.rejected then
          match abandon fuel pid p.value true st1 with
          | .error e => .error e
          | .ok (_, st2) => .ok ((), st2)
        else .ok ((), st1)

termination_by structural fuel _ _ _ => fuel

/-- `Promise.prototype.fulfill` (source lines 84-113).  Guard: throws unless
waiting or forced.  Sets the status to `resolved`.  When a success
continuation is stored it is invoked synchronously; its return value is
assigned to `this.value`; when and only when that value is future-like
(`this.value && this.value.then`), the next deferred is wired to it via
`value.then(next.resolve)` and `value.catch(next.reject)`. -/
def fulfill : Nat → Nat → JSVal → Bool → St → Except JErr (Unit × St)
  | 0, _, _, _, _ => .error .outOfFuel
  | fuel+1, pid, data, force, st =>
    match getProm st pid with
    | none => .error .typeErr
    | some p =>
      if p.status ≠ Status.waiting ∧ force = false then .error (.usage fulfillTwiceMsg)
      else
        let st1 := modProm st pid fun q => { q with status := .resolved }
        match p.owed with
        | none => .ok ((), st1)
        | some c =>
          match runProg fuel (c data) st1 with
          | .error e => .error e
          | .ok (v, st2) =>
            let st3 := modProm st2 pid fun q => { q with value := v }
            match v.asProm with
            | none => .ok ((), st3)
            | some q =>
              match getProm st3 pid with
              | none => .error .typeErr
              | some pNow =>
                match pNow.next with
                | none => .error .typeErr
                | some nid =>
                  match thenFn fuel q (some (resolveDFn nid)) none st3 with
                  | .error e => .error e
                  | .ok (_, st4) =>
                    match catchFn fuel q (some (rejectDFn nid)) st4 with
                    | .error e => .error e
                    | .ok (_, st5) => .ok ((), st5)

termination_by structural fuel _ _ _ _ => fuel

/-- `Promise.prototype.abandon` (source lines 118-141).  Guard: throws unless
waiting or forced.  Sets the status to `rejected`.  With a stored failure
continuation, stores the error into `value` and invokes the continuation;
otherwise, with a `next`, forwards the rejection to `next.reject`; otherwise
the error is dropped. -/
def abandon : Nat → Nat → JSVal → Bool → St → Except JErr (Unit × St)
  | 0, _, _, _, _ => .error .outOfFuel
  | fuel+1, pid, error, force, st =>
    match getProm st pid with
    | none => .error .typeErr
    | some p =>
      if p.status ≠ Status.waiting ∧ force = false then .error (.usage abandonTwiceMsg)
      else
        let st1 := modProm st pid fun q => { q with status := .rejected }
        match p.onFail with
        | some c =>
          let st2 := modProm st1 pid fun q => { q with value := error }
          match runProg fuel (c error) st2 with
          | .error e => .error e
          | .ok (_, st3) => .ok ((), st3)
        | none =>
          match p.next with
          | some nid =>
            match abandon fuel nid error false st1 with
            | .error e => .error e
            | .ok (_, st2) => .ok ((), st2)
          | none => .ok ((), st1)

termination_by structural fuel _ _ _ _ => fuel
end

/-- The empty initial world. -/
def st0 : St := { proms := [], log := [] }

/-- Observation: run a program from the empty world and return the log. -/
def runLog (fuel : Nat) (pr : Prog) : Option (List (Nat × JSVal)) :=
  match runProg fuel pr st0 with
  | .ok (_, s) => some s.log
  | _ => none

/-- Observation: run a program from the empty world and return the status of
promise `pid`. -/
def runStatus (fuel : Nat) (pr : Prog) (pid : Nat) : Option Status :=
  match runProg fuel pr st0 with
  | .ok (_, s) => (getProm s pid).map (·.status)
  | _ => none

/-- Observation: run a program from the empty world and return the value of
promise `pid`. -/
def runValue (fuel : Nat) (pr : Prog) (pid : Nat) : Option JSVal :=
  match runProg fuel pr st0 with
  | .ok (_, s) => (getProm s pid).map (·.value)
  | _ => none

/-- How the external node-style function treats one invocation: it either
invokes its completion callback (synchronously or on a later turn -- the
store effects are the same, only the interleaving with registration differs,
which the theorems model by choosing when to run the callback) with a pair
`(err, data)`, or it never calls back. -/
inductive CbOutcome where
  | fires (err data : JSVal)
  | never

/-- The completion callback built by `failable` (source lines 183-195) as
wired by `promisify` (lines 204-213): on a truthy `err` call
`deferred.reject(err)`, otherwise `deferred.resolve(data)`. -/
def failableCb (fuel : Nat) (dpid : Nat) (err data : JSVal) (st : St) : Except JErr (Unit × St) :=
  if err.truthy then abandon fuel dpid err false st
  else fulfill fuel dpid data false st

/-- One invocation of the function returned by `promisify(nodeStyle, context)`
(source lines 198-217): allocate a fresh deferred, hand the marshalled
arguments (followed by the completion callback) to the external node-style
function -- modelled by the callback invocation it performs on those
arguments -- and return the deferred promise. -/
def promisifyCall (nodeStyle : List JSVal → CbOutcome) (args : List JSVal)
    (fuel : Nat) (st : St) : Except JErr (Nat × St) :=
  let d := defer st
  match nodeStyle args with
  | .fires errv datav =>
    match failableCb fuel d.1 errv datav d.2 with
    | .error e => .error e
    | .ok (_, st2) => .ok (d.1, st2)
  | .never => .ok (d.1, d.2)

/-! ### Store lemmas -/

theorem getProm_some_lt {st : St} {pid : Nat} {p : PromObj} (h : getProm st pid = some p) :
    pid < st.proms.length := (List.getElem?_eq_some.mp h).1

theorem getProm_modProm_self {st : St} {pid : Nat} {p : PromObj} (f : PromObj → PromObj)
    (h : getProm st pid = some p) : getProm (modProm st pid f) pid = some (f p) := by
  have hlt : pid < st.proms.length := getProm_some_lt h
  unfold getProm at h
  unfold modProm setProm getProm
  rw [h]
  exact List.getElem?_set_eq_of_lt (f p) hlt

theorem getProm_modProm_ne {st : St} {pid j : Nat} (f : PromObj → PromObj) (h : j ≠ pid) :
    getProm (modProm st pid f) j = getProm st j := by
  unfold modProm setProm getProm
  cases hq : st.proms[pid]? with
  | none => rfl
  | some p => exact List.getElem?_set_ne (Ne.symm h)

theorem getProm_alloc (st : St) (p : PromObj) (j : Nat) :
    getProm (allocProm st p).2 j = if j = st.proms.length then some p else getProm st j := by
  unfold allocProm getProm
  simp only [List.getElem?_append]
  by_cases hj : j < st.proms.length
  · simp [hj, Nat.ne_of_lt hj]
  · by_cases he : j = st.proms.length
    · subst he; simp
    · have hgt : st.proms.length < j := by omega
      have h1 : st.proms[j]? = none := by
        apply List.getElem?_eq_none; omega
      have h2 : [p][j - st.proms.length]? = none := by
        apply List.getElem?_eq_none; simp; omega
      simp [hj, he, h1, h2]

theorem getProm_pushLog (st : St) (e : Nat × JSVal) (j : Nat) :
    getProm (pushLog st e) j = getProm st j := rfl

theorem log_modProm (st : St) (pid : Nat) (f : PromObj → PromObj) :
    (modProm st pid f).log = st.log := by
  unfold modProm setProm
  cases st.proms[pid]? <;> rfl

theorem log_alloc (st : St) (p : PromObj) : (allocProm st p).2.log = st.log := rfl

theorem length_modProm (st : St) (pid : Nat) (f : PromObj → PromObj) :
    (modProm st pid f).proms.length = st.proms.length := by
  unfold modProm setProm
  cases st.proms[pid]? <;> simp

/-! ### Status monotonicity machinery

`MonoStep s1 s2` says: every promise allocated in `s1` still exists in `s2`,
and if it had already settled in `s1` its status is unchanged in `s2`. -/

def MonoStep (s1 s2 : St) : Prop :=
  ∀ j p, getProm s1 j = some p →
    ∃ q, getProm s2 j = some q ∧ (p.status ≠ Status.waiting → q.status = p.status)

theorem monoStep_refl (s : St) : MonoStep s s := fun _ p h => ⟨p, h, fun _ => rfl⟩

theorem monoStep_trans {a b c : St} (h1 : MonoStep a b) (h2 : MonoStep b c) : MonoStep a c := by
  intro j p hp
  obtain ⟨q, hq, hs⟩ := h1 j p hp
  obtain ⟨r, hr, hs2⟩ := h2 j q hq
  refine ⟨r, hr, fun hw => ?_⟩
  rw [hs2 (by rw [hs hw]; exact hw), hs hw]

theorem monoStep_modProm_keep {st : St} {pid : Nat} {f : PromObj → PromObj}
    (hf : ∀ p, (f p).status = p.status) : MonoStep st (modProm st pid f) := by
  intro j p hp
  by_cases hj : j = pid
  · subst hj
    exact ⟨f p, getProm_modProm_self f hp, fun _ => hf p⟩
  · exact ⟨p, by rw [getProm_modProm_ne f hj]; exact hp, fun _ => rfl⟩

theorem monoStep_setOwed (st : St) (pid : Nat) (o : Option ContFn) :
    MonoStep st (modProm st pid fun q => { q with owed := o }) :=
  monoStep_modProm_keep (fun _ => rfl)

theorem monoStep_setNext (st : St) (pid : Nat) (nx : Option Nat) :
    MonoStep st (modProm st pid fun q => { q with next := nx }) :=
  monoStep_modProm_keep (fun _ => rfl)

theorem monoStep_setOnFail (st : St) (pid : Nat) (o : Option ContFn) :
    MonoStep st (modProm st pid fun q => { q with onFail := o }) :=
  monoStep_modProm_keep (fun _ => rfl)

theorem monoStep_setValue (st : St) (pid : Nat) (v : JSVal) :
    MonoStep st (modProm st pid fun q => { q with value := v }) :=
  monoStep_modProm_keep (fun _ => rfl)

theorem monoStep_modProm_status {st : St} {pid : Nat} {s : Status}
    (hcond : ∀ p, getProm st pid = some p → p.status = Status.waiting ∨ p.status = s) :
    MonoStep st (modProm st pid (fun q => { q with status := s })) := by
  intro j p hp
  by_cases hj : j = pid
  · subst hj
    refine ⟨_, getProm_modProm_self _ hp, fun hw => ?_⟩
    rcases hcond p hp with h | h
    · exact absurd h hw
    · exact h.symm
  · exact ⟨p, by rw [getProm_modProm_ne _ hj]; exact hp, fun _ => rfl⟩

theorem monoStep_alloc (st : St) (p : PromObj) : MonoStep st (allocProm st p).2 := by
  intro j q hq
  refine ⟨q, ?_, fun _ => rfl⟩
  rw [getProm_alloc]
  simp [Nat.ne_of_lt (getProm_some_lt hq), hq]

theorem monoStep_pushLog (st : St) (e : Nat × JSVal) : MonoStep st (pushLog st e) :=
  fun _ p h => ⟨p, h, fun _ => rfl⟩

theorem exceptOk_inj {ε α : Type} {x y : α} (h : (Except.ok x : Except ε α) = Except.ok y) :
    x = y := by injection h

set_option maxHeartbeats 3000000

/-- Simultaneous status monotonicity of every operation of the library: a
promise that has settled never changes status again, across arbitrary user
programs and across every internal forced-override call (which the source
uses only to re-assert the status already present). -/
theorem monoAll : ∀ fuel : Nat,
    (∀ pr st v stF, runProg fuel pr st = .ok (v, stF) → MonoStep st stF) ∧
    (∀ pid success failure st n stF,
      thenFn fuel pid success failure st = .ok (n, stF) → MonoStep st stF) ∧
    (∀ pid failure st r stF, catchFn fuel pid failure st = .ok (r, stF) → MonoStep st stF) ∧
    (∀ pid data force st r stF,
      (force = true → ∀ p, getProm st pid = some p →
        p.status = Status.waiting ∨ p.status = Status.resolved) →
      fulfill fuel pid data force st = .ok (r, stF) → MonoStep st stF) ∧
    (∀ pid e force st r stF,
      (force = true → ∀ p, getProm st pid = some p →
        p.status = Status.waiting ∨ p.status = Status.rejected) →
      abandon fuel pid e force st = .ok (r, stF) → MonoStep st stF) := by
  intro fuel
  induction fuel with
  | zero =>
    refine ⟨?_, ?_, ?_, ?_, ?_⟩ <;>
      (intros; rename_i h; simp [runProg, thenFn, catchFn, fulfill, abandon] at h)
  | succ fuel ih =>
    obtain ⟨ihRun, ihThen, ihCatch, ihFul, ihAb⟩ := ih
    refine ⟨?_, ?_, ?_, ?_, ?_⟩
    -- runProg
    · intro pr st v stF h
      cases pr with
      | ret v0 =>
        simp only [runProg, Except.ok.injEq, Prod.mk.injEq] at h
        obtain ⟨-, rfl⟩ := h
        exact monoStep_refl st
      | note tag v0 k =>
        simp only [runProg] at h
        exact monoStep_trans (monoStep_pushLog st (tag, v0)) (ihRun _ _ _ _ h)
      | newDefer k =>
        simp only [runProg] at h
        exact monoStep_trans (monoStep_alloc st _) (ihRun _ _ _ _ h)
      | newResolved v0 k =>
        simp only [runProg] at h
        exact monoStep_trans (monoStep_alloc st _) (ihRun _ _ _ _ h)
      | newRejected v0 k =>
        simp only [runProg] at h
        exact monoStep_trans (monoStep_alloc st _) (ihRun _ _ _ _ h)
      | doThen pid s k =>
        simp only [runProg] at h
        split at h
        · exact Except.noConfusion h
        · next n1 st1 hth =>
          exact monoStep_trans (ihThen _ _ _ _ _ _ hth) (ihRun _ _ _ _ h)
      | doThen2 pid s f k =>
        simp only [runProg] at h
        split at h
        · exact Except.noConfusion h
        · next n1 st1 hth =>
          exact monoStep_trans (ihThen _ _ _ _ _ _ hth) (ihRun _ _ _ _ h)
      | doThenNil pid k =>
        simp only [runProg] at h
        split at h
        · exact Except.noConfusion h
        · next n1 st1 hth =>
          exact monoStep_trans (ihThen _ _ _ _ _ _ hth) (ihRun _ _ _ _ h)
      | doCatch pid f k =>
        simp only [runProg] at h
        split at h
        · exact Except.noConfusion h
        · next r1 st1 hc =>
          exact monoStep_trans (ihCatch _ _ _ _ _ hc) (ihRun _ _ _ _ h)
      | doCatchNil pid k =>
        simp only [runProg] at h
        split at h
        · exact Except.noConfusion h
        · next r1 st1 hc =>
          exact monoStep_trans (ihCatch _ _ _ _ _ hc) (ihRun _ _ _ _ h)
      | doResolve pid v0 k =>
        simp only [runProg] at h
        split at h
        · exact Except.noConfusion h
        · next r1 st1 hf =>
          exact monoStep_trans (ihFul _ _ _ _ _ _ (fun hh => by cases hh) hf)
            (ihRun _ _ _ _ h)
      | doReject pid v0 k =>
        simp only [runProg] at h
        split at h
        · exact Except.noConfusion h
        · next r1 st1 ha =>
          exact monoStep_trans (ihAb _ _ _ _ _ _ (fun hh => by cases hh) ha)
            (ihRun _ _ _ _ h)
    -- thenFn
    · intro pid success failure st n stF h
      simp only [thenFn] at h
      split at h
      · exact Except.noConfusion h
      · next p hget =>
        split at h
        · exact Except.noConfusion h
        · next howed =>
          split at h
          · exact Except.noConfusion h
          · next p3 hget3 =>
            split at h
            · exact Except.noConfusion h
            · next u4 st4 hstep =>
              split at h
              · exact Except.noConfusion h
              · next u5 st5 hstep2 =>
                split at h
                · exact Except.noConfusion h
                · next p5 hget5 =>
                  split at h
                  · next n2 hnext =>
                    have h2 := exceptOk_inj h
                    injection h2 with hfst hsnd
                    subst hsnd
                    split at hstep
                    · next hres =>
                      split at hstep2
                      · next fc =>
                        refine monoStep_trans (monoStep_setOwed _ _ _)
                          (monoStep_trans (monoStep_alloc _ _)
                            (monoStep_trans (monoStep_setNext _ _ _)
                              (monoStep_trans (ihFul _ _ _ _ _ _ ?_ hstep)
                                (ihCatch _ _ _ _ _ hstep2))))
                        intro _ q hq
                        rw [hget3] at hq
                        injection hq with hh
                        subst hh
                        exact Or.inr hres
                      · have h3 := exceptOk_inj hstep2
                        injection h3 with h3a h3b
                        subst h3b
                        refine monoStep_trans (monoStep_setOwed _ _ _)
                          (monoStep_trans (monoStep_alloc _ _)
                            (monoStep_trans (monoStep_setNext _ _ _)
                              (ihFul _ _ _ _ _ _ ?_ hstep)))
                        intro _ q hq
                        rw [hget3] at hq
                        injection hq with hh
                        subst hh
                        exact Or.inr hres
                    · have h3 := exceptOk_inj hstep
                      injection h3 with h3a h3b
                      subst h3b
                      split at hstep2
                      · next fc =>
                        exact monoStep_trans (monoStep_setOwed _ _ _)
                          (monoStep_trans (monoStep_alloc _ _)
                            (monoStep_trans (monoStep_setNext _ _ _)
                              (ihCatch _ _ _ _ _ hstep2)))
                      · have h4 := exceptOk_inj hstep2
                        injection h4 with h4a h4b
                        subst h4b
                        exact monoStep_trans (monoStep_setOwed _ _ _)
                          (monoStep_trans (monoStep_alloc _ _) (monoStep_setNext _ _ _))
                  · exact Except.noConfusion h
    -- catchFn
    · intro pid failure st r stF h
      simp only [catchFn] at h
      split at h
      · exact Except.noConfusion h
      · next p hget =>
        split at h
        · exact Except.noConfusion h
        · next honf =>
          split at h
          · next hrej =>
            split at h
            · exact Except.noConfusion h
            · next u2 st2 hab =>
              have h2 := exceptOk_inj h
              injection h2 with hfst hsnd
              subst hsnd
              refine monoStep_trans (monoStep_setOnFail _ _ _)
                (ihAb _ _ _ _ _ _ ?_ hab)
              intro _ q hq
              rw [getProm_modProm_self _ hget] at hq
              injection hq with hh
              subst hh
              exact Or.inr hrej
          · next hrej =>
            have h2 := exceptOk_inj h
            injection h2 with hfst hsnd
            subst hsnd
            exact monoStep_setOnFail _ _ _
    -- fulfill
    · intro pid data force st r stF hforce h
      simp only [fulfill] at h
      split at h
      · exact Except.noConfusion h
      · next p hget =>
        split at h
        · exact Except.noConfusion h
        · next hguard =>
          have hstat : ∀ q, getProm st pid = some q →
              q.status = Status.waiting ∨ q.status = Status.resolved := by
            intro q hq
            rw [hget] at hq
            injection hq with hh
            subst hh
            by_cases hw : p.status = Status.waiting
            · exact Or.inl hw
            · cases force with
              | false => exact absurd ⟨hw, rfl⟩ hguard
              | true => exact hforce rfl p hget
          split at h
          · have h2 := exceptOk_inj h
            injection h2 with hfst hsnd
            subst hsnd
            exact monoStep_modProm_status hstat
          · next c =>
            split at h
            · exact Except.noConfusion h
            · next v2 st2 hrun =>
              split at h
              · have h2 := exceptOk_inj h
                injection h2 with hfst hsnd
                subst hsnd
                exact monoStep_trans (monoStep_modProm_status hstat)
                  (monoStep_trans (ihRun _ _ _ _ hrun) (monoStep_setValue _ _ _))
              · next q hq =>
                split at h
                · exact Except.noConfusion h
                · next pNow hgetNow =>
                  split at h
                  · exact Except.noConfusion h
                  · next nid hnext =>
                    split at h
                    · exact Except.noConfusion h
                    · next u4 st4 hth =>
                      split at h
                      · exact Except.noConfusion h
                      · next u5 st5 hc =>
                        have h2 := exceptOk_inj h
                        injection h2 with hfst hsnd
                        subst hsnd
                        exact monoStep_trans (monoStep_modProm_status hstat)
                          (monoStep_trans (ihRun _ _ _ _ hrun)
                            (monoStep_trans (monoStep_setValue _ _ _)
                              (monoStep_trans (ihThen _ _ _ _ _ _ hth)
                                (ihCatch _ _ _ _ _ hc))))
    -- abandon
    · intro pid e force st r stF hforce h
      simp only [abandon] at h
      split at h
      · exact Except.noConfusion h
      · next p hget =>
        split at h
        · exact Except.noConfusion h
        · next hguard =>
          have hstat : ∀ q, getProm st pid = some q →
              q.status = Status.waiting ∨ q.status = Status.rejected := by
            intro q hq
            rw [hget] at hq
            injection hq with hh
            subst hh
            by_cases hw : p.status = Status.waiting
            · exact Or.inl hw
            · cases force with
              | false => exact absurd ⟨hw, rfl⟩ hguard
              | true => exact hforce rfl p hget
          split at h
          · next c =>
            split at h
            · exact Except.noConfusion h
            · next u3 st3 hrun =>
              have h2 := exceptOk_inj h
              injection h2 with hfst hsnd
              subst hsnd
              exact monoStep_trans (monoStep_modProm_status hstat)
                (monoStep_trans (monoStep_setValue _ _ _) (ihRun _ _ _ _ hrun))
          · split at h
            · next nid =>
              split at h
              · exact Except.noConfusion h
              · next u2 st2 hab =>
                have h2 := exceptOk_inj h
                injection h2 with hfst hsnd
                subst hsnd
                exact monoStep_trans (monoStep_modProm_status hstat)
                  (ihAb _ _ _ _ _ _ (fun hh => by cases hh) hab)
            · have h2 := exceptOk_inj h
              injection h2 with hfst hsnd
              subst hsnd
              exact monoStep_modProm_status hstat

/-! ### One-step consequences of the guards and of settlement -/

/-- A non-forced `fulfill` that returns normally was called on a `Waiting`
promise (otherwise the guard of source lines 90-92 throws). -/
theorem fulfill_ok_was_waiting {fuel pid : Nat} {data : JSVal} {st : St} {r : Unit} {stF : St}
    (h : fulfill fuel pid data false st = .ok (r, stF)) :
    ∃ p, getProm st pid = some p ∧ p.status = Status.waiting := by
  cases fuel with
  | zero => exact Except.noConfusion h
  | succ fuel =>
    simp only [fulfill] at h
    split at h
    · exact Except.noConfusion h
    · next p hget =>
      split at h
      · exact Except.noConfusion h
      · next hguard =>
        refine ⟨p, hget, ?_⟩
        by_contra hw
        exact hguard ⟨hw, trivial⟩

/-- A non-forced `abandon` that returns normally was called on a `Waiting`
promise (otherwise the guard of source lines 120-122 throws). -/
theorem abandon_ok_was_waiting {fuel pid : Nat} {e : JSVal} {st : St} {r : Unit} {stF : St}
    (h : abandon fuel pid e false st = .ok (r, stF)) :
    ∃ p, getProm st pid = some p ∧ p.status = Status.waiting := by
  cases fuel with
  | zero => exact Except.noConfusion h
  | succ fuel =>
    simp only [abandon] at h
    split at h
    · exact Except.noConfusion h
    · next p hget =>
      split at h
      · exact Except.noConfusion h
      · next hguard =>
        refine ⟨p, hget, ?_⟩
        by_contra hw
        exact hguard ⟨hw, trivial⟩

/-- `then` on a promise whose `owed` field is already truthy throws the
double-registration error, whatever the status (source lines 31-33). -/
theorem then_owed_errors {fuel pid : Nat} {success failure : Option ContFn} {st : St}
    {p : PromObj} (hget : getProm st pid = some p) (ho : p.owed.isSome) :
    thenFn (fuel+1) pid success failure st = .error (.usage thenTwiceMsg) := by
  simp only [thenFn, hget]
  rw [if_pos ho]

/-- `catch` on a promise whose `onFail` field is already truthy throws the
double-registration error (source lines 66-68). -/
theorem catch_onFail_errors {fuel pid : Nat} {failure : Option ContFn} {st : St}
    {p : PromObj} (hget : getProm st pid = some p) (ho : p.onFail.isSome) :
    catchFn (fuel+1) pid failure st = .error (.usage catchTwiceMsg) := by
  simp only [catchFn, hget]
  rw [if_pos ho]

/-- Non-forced `fulfill` on a settled promise throws (source lines 90-92). -/
theorem fulfill_settled_errors {fuel pid : Nat} {data : JSVal} {st : St}
    {p : PromObj} (hget : getProm st pid = some p) (hw : p.status ≠ Status.waiting) :
    fulfill (fuel+1) pid data false st = .error (.usage fulfillTwiceMsg) := by
  simp only [fulfill, hget]
  rw [if_pos ⟨hw, trivial⟩]

/-- Non-forced `abandon` on a settled promise throws (source lines 120-122). -/
theorem abandon_settled_errors {fuel pid : Nat} {e : JSVal} {st : St}
    {p : PromObj} (hget : getProm st pid = some p) (hw : p.status ≠ Status.waiting) :
    abandon (fuel+1) pid e false st = .error (.usage abandonTwiceMsg) := by
  simp only [abandon, hget]
  rw [if_pos ⟨hw, trivial⟩]

/-- After a `fulfill` that returns normally, the target promise reads back
with status `Resolved` (set on source line 95 and never changed afterwards
inside the call). -/
theorem fulfill_ok_resolved {fuel pid : Nat} {data : JSVal} {force : Bool} {st : St}
    {r : Unit} {stF : St} (h : fulfill fuel pid data force st = .ok (r, stF)) :
    ∃ q, getProm stF pid = some q ∧ q.status = Status.resolved := by
  cases fuel with
  | zero => exact Except.noConfusion h
  | succ fuel =>
    simp only [fulfill] at h
    split at h
    · exact Except.noConfusion h
    · next p hget =>
      split at h
      · exact Except.noConfusion h
      · next hguard =>
        have hst1 : getProm (modProm st pid fun q => { q with status := Status.resolved }) pid
            = some { p with status := Status.resolved } := getProm_modProm_self _ hget
        split at h
        · have h2 := exceptOk_inj h
          injection h2 with hfst hsnd
          subst hsnd
          exact ⟨_, hst1, rfl⟩
        · next c =>
          split at h
          · exact Except.noConfusion h
          · next v2 st2 hrun =>
            obtain ⟨q2, hq2, hs2⟩ := (monoAll fuel).1 _ _ _ _ hrun pid _ hst1
            have hs2r : q2.status = Status.resolved := hs2 (by simp)
            have hst3 : getProm (modProm st2 pid fun q => { q with value := v2 }) pid
                = some { q2 with value := v2 } := getProm_modProm_self _ hq2
            split at h
            · have h2 := exceptOk_inj h
              injection h2 with hfst hsnd
              subst hsnd
              exact ⟨_, hst3, hs2r⟩
            · next q hq =>
              split at h
              · exact Except.noConfusion h
              · next pNow hgetNow =>
                split at h
                · exact Except.noConfusion h
                · next nid hnext =>
                  split at h
                  · exact Except.noConfusion h
                  · next u4 st4 hth =>
                    split at h
                    · exact Except.noConfusion h
                    · next u5 st5 hc =>
                      have h2 := exceptOk_inj h
                      injection h2 with hfst hsnd
                      subst hsnd
                      obtain ⟨q3, hq3, hs3⟩ :=
                        (monoAll fuel).2.1 _ _ _ _ _ _ hth pid _ hst3
                      have hs3r : q3.status = Status.resolved := by
                        have : ({ q2 with value := v2 } : PromObj).status = Status.resolved := hs2r
                        rw [hs3 (by rw [this]; simp), this]
                      obtain ⟨q4, hq4, hs4⟩ :=
                        (monoAll fuel).2.2.1 _ _ _ _ _ hc pid _ hq3
                      exact ⟨q4, hq4, by rw [hs4 (by rw [hs3r]; simp), hs3r]⟩

/-- After an `abandon` that returns normally, the target promise reads back
with status `Rejected` (set on source line 125 and never changed afterwards
inside the call). -/
theorem abandon_ok_rejected {fuel pid : Nat} {e : JSVal} {force : Bool} {st : St}
    {r : Unit} {stF : St} (h : abandon fuel pid e force st = .ok (r, stF)) :
    ∃ q, getProm stF pid = some q ∧ q.status = Status.rejected := by
  cases fuel with
  | zero => exact Except.noConfusion h
  | succ fuel =>
    simp only [abandon] at h
    split at h
    · exact Except.noConfusion h
    · next p hget =>
      split at h
      · exact Except.noConfusion h
      · next hguard =>
        have hst1 : getProm (modProm st pid fun q => { q with status := Status.rejected }) pid
            = some { p with status := Status.rejected } := getProm_modProm_self _ hget
        split at h
        · next c =>
          split at h
          · exact Except.noConfusion h
          · next u3 st3 hrun =>
            have h2 := exceptOk_inj h
            injection h2 with hfst hsnd
            subst hsnd
            have hst2 : getProm (modProm
                (modProm st pid fun q => { q with status := Status.rejected }) pid
                fun q => { q with value := e }) pid
                = some { p with status := Status.rejected, value := e } :=
              getProm_modProm_self _ hst1
            obtain ⟨q2, hq2, hs2⟩ := (monoAll fuel).1 _ _ _ _ hrun pid _ hst2
            exact ⟨q2, hq2, hs2 (by simp)⟩
        · split at h
          · next nid =>
            split at h
            · exact Except.noConfusion h
            · next u2 st2 hab =>
              have h2 := exceptOk_inj h
              injection h2 with hfst hsnd
              subst hsnd
              obtain ⟨q2, hq2, hs2⟩ :=
                (monoAll fuel).2.2.2.2 _ _ _ _ _ _ (fun hh => by cases hh) hab pid _ hst1
              exact ⟨q2, hq2, hs2 (by simp)⟩
          · have h2 := exceptOk_inj h
            injection h2 with hfst hsnd
            subst hsnd
            exact ⟨_, hst1, rfl⟩

/-! ### Claim C4: the four usage errors -/

/-- C4: each of the four misuses raises the usage error synchronously:
a second `.then` registration on a future whose success continuation is
already stored (whatever its status, so both while `Waiting` and after
settlement), a second `.catch` registration, a second `resolve` on the same
deferred, and a second `reject` on the same deferred (both without the
internal force flag). -/
theorem c4_usage_errors :
    (∀ fuel pid success failure st p, getProm st pid = some p → p.owed.isSome →
      thenFn (fuel+1) pid success failure st = .error (.usage thenTwiceMsg)) ∧
    (∀ fuel pid failure st p, getProm st pid = some p → p.onFail.isSome →
      catchFn (fuel+1) pid failure st = .error (.usage catchTwiceMsg)) ∧
    (∀ fuel fuel2 pid d d2 st r st1, fulfill fuel pid d false st = .ok (r, st1) →
      fulfill (fuel2+1) pid d2 false st1 = .error (.usage fulfillTwiceMsg)) ∧
    (∀ fuel fuel2 pid e e2 st r st1, abandon fuel pid e false st = .ok (r, st1) →
      abandon (fuel2+1) pid e2 false st1 = .error (.usage abandonTwiceMsg)) := by
  refine ⟨?_, ?_, ?_, ?_⟩
  · intro fuel pid success failure st p hget ho
    exact then_owed_errors hget ho
  · intro fuel pid failure st p hget ho
    exact catch_onFail_errors hget ho
  · intro fuel fuel2 pid d d2 st r st1 h1
    obtain ⟨q, hq, hs⟩ := fulfill_ok_resolved h1
    exact fulfill_settled_errors hq (by simp [hs])
  · intro fuel fuel2 pid e e2 st r st1 h1
    obtain ⟨q, hq, hs⟩ := abandon_ok_rejected h1
    exact abandon_settled_errors hq (by simp [hs])

/-- Concrete instantiation of the C4 theorem: double `.then` while `Waiting`
and while `Resolved`, double `.catch`, double resolve, double reject. -/
theorem c4_usage_errors_witness :
    thenFn 1 0 (some (spyFn 1)) none
        { proms := [{ value := .undef, status := .waiting, owed := some (spyFn 0),
                      next := some 1, onFail := none }, PromObj.init], log := [] }
      = .error (.usage thenTwiceMsg) ∧
    thenFn 1 0 (some (spyFn 1)) none
        { proms := [{ value := .num 5, status := .resolved, owed := some (spyFn 0),
                      next := some 1, onFail := none }, PromObj.init], log := [] }
      = .error (.usage thenTwiceMsg) ∧
    catchFn 1 0 (some (spyFn 1))
        { proms := [{ value := .undef, status := .waiting, owed := none,
                      next := none, onFail := some (spyFn 0) }], log := [] }
      = .error (.usage catchTwiceMsg) ∧
    fulfill 1 0 (.num 8) false
        { proms := [{ value := .undef, status := .resolved, owed := none,
                      next := none, onFail := none }], log := [] }
      = .error (.usage fulfillTwiceMsg) ∧
    abandon 1 0 (.str "e2") false
        { proms := [{ value := .undef, status := .rejected, owed := none,
                      next := none, onFail := none }], log := [] }
      = .error (.usage abandonTwiceMsg) :=
  ⟨c4_usage_errors.1 0 0 _ _ _ _ rfl rfl,
   c4_usage_errors.1 0 0 _ _ _ _ rfl rfl,
   c4_usage_errors.2.1 0 0 _ _ _ rfl rfl,
   c4_usage_errors.2.2.1 1 0 0 (.num 7) (.num 8)
     { proms := [PromObj.init], log := [] } () _ rfl,
   c4_usage_errors.2.2.2 1 0 0 (.str "e") (.str "e2")
     { proms := [PromObj.init], log := [] } () _ rfl⟩

/-! ### Claim C7: status monotonicity -/

/-- C7: every future starts `Waiting` at creation; a non-forced `fulfill` or
`abandon` returns normally only on a `Waiting` future; and across any user
program built from the public API (creation, `.then`, `.catch`, deferred
resolve and reject -- which is where the internal forced-override calls live),
a promise that has left `Waiting` keeps its terminal status forever. -/
theorem c7_status_monotone :
    (∀ st, (getProm (defer st).2 (defer st).1).map (·.status) = some Status.waiting) ∧
    (∀ fuel pid data st r stF, fulfill fuel pid data false st = .ok (r, stF) →
      ∃ p, getProm st pid = some p ∧ p.status = Status.waiting) ∧
    (∀ fuel pid e st r stF, abandon fuel pid e false st = .ok (r, stF) →
      ∃ p, getProm st pid = some p ∧ p.status = Status.waiting) ∧
    (∀ fuel pr st v stF, runProg fuel pr st = .ok (v, stF) →
      ∀ j p, getProm st j = some p → ∃ q, getProm stF j = some q ∧
        (p.status ≠ Status.waiting → q.status = p.status)) := by
  refine ⟨?_, ?_, ?_, ?_⟩
  · intro st
    show (getProm (allocProm st PromObj.init).2 st.proms.length).map (·.status)
      = some Status.waiting
    rw [getProm_alloc]
    simp [PromObj.init]
  · intro fuel pid data st r stF h
    exact fulfill_ok_was_waiting h
  · intro fuel pid e st r stF h
    exact abandon_ok_was_waiting h
  · intro fuel pr st v stF h j p hp
    exact (monoAll fuel).1 _ _ _ _ h j p hp

/-- Concrete instantiation of the C7 theorem: a fresh deferred is `Waiting`;
a successful non-forced resolve was on a `Waiting` future; a settled future
keeps its status across further API activity. -/
theorem c7_status_monotone_witness :
    ((getProm (defer st0).2 (defer st0).1).map (·.status) = some Status.waiting) ∧
    (∃ p, getProm ({ proms := [PromObj.init], log := [] } : St) 0 = some p ∧
      p.status = Status.waiting) ∧
    (∃ q, getProm ({ proms := [{ value := .num 3, status := .resolved, owed := none,
                                 next := none, onFail := none }, PromObj.init],
                     log := [] } : St) 0 = some q ∧
      (Status.resolved ≠ Status.waiting → q.status = Status.resolved)) :=
  ⟨c7_status_monotone.1 st0,
   c7_status_monotone.2.1 1 0 (.num 3) _ () _ rfl,
   c7_status_monotone.2.2.2 2 (.newDefer fun _ => .ret .undef)
     { proms := [{ value := .num 3, status := .resolved, owed := none,
                   next := none, onFail := none }], log := [] } .undef _ rfl 0 _ rfl⟩

/-! ### Rejection chains -/

/-- A pending chain with no failure continuation anywhere: consecutive
promises linked by `next`, all `Waiting`, none with an `onFail`; the last one
has no `next` (the chain end, where a rejection is dropped). -/
def chainNoFail (st : St) : List Nat → Prop
  | [] => True
  | [i] =>
    match getProm st i with
    | some p => p.status = Status.waiting ∧ p.onFail = none ∧ p.next = none
    | none => False
  | i :: j :: rest =>
    (match getProm st i with
     | some p => p.status = Status.waiting ∧ p.onFail = none ∧ p.next = some j
     | none => False) ∧ chainNoFail st (j :: rest)

/-- A pending handler-less chain whose last link points at `q` (where a
failure continuation is registered). -/
def chainToHandler (st : St) : List Nat → Nat → Prop
  | [], _ => False
  | [i], q =>
    match getProm st i with
    | some p => p.status = Status.waiting ∧ p.onFail = none ∧ p.next = some q
    | none => False
  | i :: j :: rest, q =>
    (match getProm st i with
     | some p => p.status = Status.waiting ∧ p.onFail = none ∧ p.next = some j
     | none => False) ∧ chainToHandler st (j :: rest) q

/-- Mark every listed promise `Rejected`, in order, leaving every other field
and every other promise untouched. -/
def rejectAll (st : St) : List Nat → St
  | [] => st
  | i :: rest => rejectAll (modProm st i fun q => { q with status := Status.rejected }) rest

theorem getProm_rejectAll_notMem : ∀ (pids : List Nat) (st : St) (j : Nat), j ∉ pids →
    getProm (rejectAll st pids) j = getProm st j := by
  intro pids
  induction pids with
  | nil => intro st j _; rfl
  | cons i rest ih =>
    intro st j hj
    rw [show rejectAll st (i :: rest)
        = rejectAll (modProm st i fun q => { q with status := Status.rejected }) rest from rfl]
    rw [ih _ _ (fun hm => hj (List.mem_cons_of_mem _ hm))]
    refine getProm_modProm_ne _ (fun he => hj ?_)
    rw [he]
    exact List.mem_cons_self _ _

theorem getProm_rejectAll_mem : ∀ (pids : List Nat) (st : St) (j : Nat) (p : PromObj),
    pids.Nodup → j ∈ pids → getProm st j = some p →
    getProm (rejectAll st pids) j = some { p with status := Status.rejected } := by
  intro pids
  induction pids with
  | nil => intro st j p _ hj; exact absurd hj (List.not_mem_nil j)
  | cons i rest ih =>
    intro st j p hnd hj hget
    obtain ⟨hni, hndr⟩ := List.nodup_cons.mp hnd
    rcases List.mem_cons.mp hj with rfl | hjr
    · rw [show rejectAll st (j :: rest)
          = rejectAll (modProm st j fun q => { q with status := Status.rejected }) rest from rfl]
      rw [getProm_rejectAll_notMem rest _ j hni]
      exact getProm_modProm_self _ hget
    · rw [show rejectAll st (i :: rest)
          = rejectAll (modProm st i fun q => { q with status := Status.rejected }) rest from rfl]
      refine ih _ _ _ hndr hjr ?_
      rw [getProm_modProm_ne _ (fun he => hni (by rw [← he]; exact hjr))]
      exact hget

theorem log_rejectAll : ∀ (pids : List Nat) (st : St), (rejectAll st pids).log = st.log := by
  intro pids
  induction pids with
  | nil => intro st; rfl
  | cons i rest ih =>
    intro st
    rw [show rejectAll st (i :: rest)
        = rejectAll (modProm st i fun q => { q with status := Status.rejected }) rest from rfl]
    rw [ih, log_modProm]

theorem chainNoFail_congr : ∀ (pids : List Nat) (st st2 : St),
    (∀ k, k ∈ pids → getProm st2 k = getProm st k) →
    chainNoFail st pids → chainNoFail st2 pids := by
  intro pids
  induction pids with
  | nil => intro _ _ _ _; trivial
  | cons i rest ih =>
    cases rest with
    | nil =>
      intro st st2 hk h
      simp only [chainNoFail] at h ⊢
      rw [hk i (List.mem_cons_self _ _)]
      exact h
    | cons j rest2 =>
      intro st st2 hk h
      obtain ⟨hh, ht⟩ := h
      refine ⟨?_, ih st st2 (fun k hkm => hk k (List.mem_cons_of_mem _ hkm)) ht⟩
      rw [hk i (List.mem_cons_self _ _)]
      exact hh

theorem chainToHandler_congr : ∀ (pids : List Nat) (q : Nat) (st st2 : St),
    (∀ k, k ∈ pids → getProm st2 k = getProm st k) →
    chainToHandler st pids q → chainToHandler st2 pids q := by
  intro pids
  induction pids with
  | nil => intro _ _ _ _ h; exact h
  | cons i rest ih =>
    cases rest with
    | nil =>
      intro q st st2 hk h
      simp only [chainToHandler] at h ⊢
      rw [hk i (List.mem_cons_self _ _)]
      exact h
    | cons j rest2 =>
      intro q st st2 hk h
      obtain ⟨hh, ht⟩ := h
      refine ⟨?_, ih q st st2 (fun k hkm => hk k (List.mem_cons_of_mem _ hkm)) ht⟩
      rw [hk i (List.mem_cons_self _ _)]
      exact hh

theorem chainNoFail_mem : ∀ (pids : List Nat) (st : St) (j : Nat),
    chainNoFail st pids → j ∈ pids →
    ∃ p, getProm st j = some p ∧ p.status = Status.waiting ∧ p.onFail = none := by
  intro pids
  induction pids with
  | nil => intro st j _ hj; exact absurd hj (List.not_mem_nil j)
  | cons i rest ih =>
    cases rest with
    | nil =>
      intro st j hch hj
      rcases List.mem_cons.mp hj with rfl | hjr
      · simp only [chainNoFail] at hch
        split at hch
        · next p hget => exact ⟨p, hget, hch.1, hch.2.1⟩
        · exact absurd hch (by simp)
      · exact absurd hjr (List.not_mem_nil j)
    | cons k rest2 =>
      intro st j hch hj
      obtain ⟨hh, ht⟩ := hch
      rcases List.mem_cons.mp hj with rfl | hjr
      · split at hh
        · next p hget => exact ⟨p, hget, hh.1, hh.2.1⟩
        · exact absurd hh (by simp)
      · exact ih st j ht hjr

/-- One `abandon` step on a promise with no failure continuation but a
`next` (source lines 131-136): mark it `Rejected` and forward the rejection
verbatim to `next.reject`. -/
theorem abandon_step_next {n i j : Nat} {st : St} {p : PromObj} {e : JSVal}
    (hget : getProm st i = some p) (hw : p.status = Status.waiting)
    (hof : p.onFail = none) (hnx : p.next = some j) :
    abandon (n+1) i e false st =
      (match abandon n j e false
          (modProm st i fun q => { q with status := Status.rejected }) with
       | .error err => .error err
       | .ok (_, s) => .ok ((), s)) := by
  simp only [abandon, hget]
  rw [if_neg (by simp [hw])]
  simp only [hof, hnx]

/-- One `abandon` step on a promise with neither a failure continuation nor a
`next` (source lines 139-141): mark it `Rejected` and drop the error. -/
theorem abandon_step_drop {n i : Nat} {st : St} {p : PromObj} {e : JSVal}
    (hget : getProm st i = some p) (hw : p.status = Status.waiting)
    (hof : p.onFail = none) (hnx : p.next = none) :
    abandon (n+1) i e false st =
      .ok ((), modProm st i fun q => { q with status := Status.rejected }) := by
  simp only [abandon, hget]
  rw [if_neg (by simp [hw])]
  simp only [hof, hnx]

/-- One `abandon` step at a promise with a registered failure continuation
(source lines 127-129): mark it `Rejected`, store the error into `value`,
and continue as the failure continuation applied to the error. -/
theorem abandon_at_handler {n q : Nat} {st : St} {pq : PromObj} {e : JSVal} {c : ContFn}
    (hget : getProm st q = some pq) (hw : pq.status = Status.waiting)
    (hof : pq.onFail = some c) :
    abandon (n+1) q e false st =
      (match runProg n (c e)
          (modProm (modProm st q fun r => { r with status := Status.rejected }) q
            fun r => { r with value := e }) with
       | .error err => .error err
       | .ok (_, s) => .ok ((), s)) := by
  simp only [abandon, hget]
  rw [if_neg (by simp [hw])]
  simp only [hof]

/-- Rejecting the head of a handler-less chain succeeds, walks the chain, and
marks exactly the chain promises `Rejected`, changing nothing else. -/
theorem abandon_chainNoFail : ∀ (rest : List Nat) (i : Nat) (st : St) (e : JSVal) (fuel : Nat),
    chainNoFail st (i :: rest) → (i :: rest).Nodup →
    abandon (fuel + rest.length + 1) i e false st = .ok ((), rejectAll st (i :: rest)) := by
  intro rest
  induction rest with
  | nil =>
    intro i st e fuel hch hnd
    simp only [chainNoFail] at hch
    split at hch
    · next p hget =>
      obtain ⟨hw, hof, hnx⟩ := hch
      exact abandon_step_drop hget hw hof hnx
    · exact absurd hch (by simp)
  | cons j rest ih =>
    intro i st e fuel hch hnd
    obtain ⟨hh, ht⟩ := hch
    split at hh
    · next p hget =>
      obtain ⟨hw, hof, hnx⟩ := hh
      obtain ⟨hni, hndr⟩ := List.nodup_cons.mp hnd
      rw [abandon_step_next hget hw hof hnx]
      simp only [List.length_cons]
      rw [← Nat.add_assoc]
      rw [ih j _ e fuel
        (chainNoFail_congr _ _ _
          (fun k hkm => getProm_modProm_ne _ (fun he => hni (by rw [← he]; exact hkm))) ht)
        hndr]
      rfl
    · exact absurd hh (by simp)

/-- Rejecting the head of a handler-less chain that ends at a promise `q`
with a failure continuation walks the chain, rejecting every link, and then
performs the `abandon` step at `q`. -/
theorem abandon_chain_forward : ∀ (rest : List Nat) (i : Nat) (st : St) (e : JSVal)
    (fuel : Nat) (q : Nat),
    chainToHandler st (i :: rest) q → (i :: rest).Nodup → q ∉ i :: rest →
    abandon (fuel + rest.length + 1) i e false st =
      (match abandon fuel q e false (rejectAll st (i :: rest)) with
       | .error err => .error err
       | .ok (_, s) => .ok ((), s)) := by
  intro rest
  induction rest with
  | nil =>
    intro i st e fuel q hch hnd hq
    simp only [chainToHandler] at hch
    split at hch
    · next p hget =>
      obtain ⟨hw, hof, hnx⟩ := hch
      exact abandon_step_next hget hw hof hnx
    · exact absurd hch (by simp)
  | cons j rest ih =>
    intro i st e fuel q hch hnd hq
    obtain ⟨hh, ht⟩ := hch
    split at hh
    · next p hget =>
      obtain ⟨hw, hof, hnx⟩ := hh
      obtain ⟨hni, hndr⟩ := List.nodup_cons.mp hnd
      rw [abandon_step_next hget hw hof hnx]
      simp only [List.length_cons]
      rw [← Nat.add_assoc]
      rw [ih j _ e fuel q
        (chainToHandler_congr _ _ _ _
          (fun k hkm => getProm_modProm_ne _ (fun he => hni (by rw [← he]; exact hkm))) ht)
        hndr (fun hm => hq (List.mem_cons_of_mem _ hm))]
      rw [show rejectAll st (i :: j :: rest)
          = rejectAll (modProm st i fun q => { q with status := Status.rejected })
              (j :: rest) from rfl]
      rcases habq : abandon fuel q e false
          (rejectAll (modProm st i fun q => { q with status := Status.rejected }) (j :: rest))
        with err | ⟨u, s⟩ <;> rfl
    · exact absurd hh (by simp)

/-! ### Claim C6: silently dropped rejection -/

/-- C6: rejecting a chain with no failure continuation registered anywhere
completes normally -- the call returns instead of raising -- marks the chain
promises `Rejected`, and discards the error with no diagnostic: the log is
unchanged, every chain member keeps every field except `status`, and every
other promise is untouched (drop, not crash). -/
theorem c6_silent_drop (rest : List Nat) (i : Nat) (st : St) (e : JSVal) (fuel : Nat)
    (hch : chainNoFail st (i :: rest)) (hnd : (i :: rest).Nodup) :
    ∃ stF, abandon (fuel + rest.length + 1) i e false st = .ok ((), stF) ∧
      stF.log = st.log ∧
      (∀ j ∈ i :: rest, ∃ p, getProm st j = some p ∧
        getProm stF j = some { p with status := Status.rejected }) ∧
      (∀ j, j ∉ i :: rest → getProm stF j = getProm st j) := by
  refine ⟨rejectAll st (i :: rest), abandon_chainNoFail rest i st e fuel hch hnd,
    log_rejectAll _ _, ?_, ?_⟩
  · intro j hj
    obtain ⟨p, hp, -, -⟩ := chainNoFail_mem _ _ _ hch hj
    exact ⟨p, hp, getProm_rejectAll_mem _ _ _ _ hnd hj hp⟩
  · intro j hj
    exact getProm_rejectAll_notMem _ _ _ hj

/-- Concrete instantiation of the C6 theorem on the two-link chain built by
one `.then` with no `.catch` anywhere: rejecting the head is a normal return,
the log stays empty, both promises end `Rejected`. -/
theorem c6_silent_drop_witness :
    chainNoFail
      { proms := [{ value := .undef, status := .waiting, owed := some (spyFn 1),
                    next := some 1, onFail := none }, PromObj.init], log := [] } [0, 1] ∧
    ([0, 1] : List Nat).Nodup ∧
    (∃ stF, abandon 7 0 (.str "boom") false
        { proms := [{ value := .undef, status := .waiting, owed := some (spyFn 1),
                      next := some 1, onFail := none }, PromObj.init], log := [] }
        = .ok ((), stF) ∧
      stF.log = [] ∧
      (∀ j ∈ ([0, 1] : List Nat), ∃ p, getProm
          { proms := [{ value := .undef, status := .waiting, owed := some (spyFn 1),
                        next := some 1, onFail := none }, PromObj.init], log := [] } j = some p ∧
        getProm stF j = some { p with status := Status.rejected }) ∧
      (∀ j, j ∉ ([0, 1] : List Nat) → getProm stF j = getProm
          { proms := [{ value := .undef, status := .waiting, owed := some (spyFn 1),
                        next := some 1, onFail := none }, PromObj.init], log := [] } j)) :=
  ⟨⟨⟨rfl, rfl, rfl⟩, ⟨rfl, rfl, rfl⟩⟩, by decide,
   c6_silent_drop [1] 0 _ (.str "boom") 5
     ⟨⟨rfl, rfl, rfl⟩, ⟨rfl, rfl, rfl⟩⟩ (by decide)⟩

/-! ### Claim C10: rejection without a handler leaves `value` alone -/

/-- C10: `abandon` on a future with no registered failure continuation never
writes its `value` field.  With no `next`, the entire effect of the call is
the status flip to `Rejected` (the returned store is literally the input
store with only that one field updated, so value, continuations, log and all
other promises are untouched); along a handler-less chain, every member keeps
its old value even though its status becomes `Rejected` -- the error is
stored into `value` only on the branch where a failure handler exists
(source lines 127-129). -/
theorem c10_value_frame :
    (∀ (fuel pid : Nat) (st : St) (p : PromObj) (e : JSVal) (force : Bool),
      getProm st pid = some p → p.onFail = none → p.next = none →
      (p.status = Status.waiting ∨ force = true) →
      abandon (fuel+1) pid e force st =
        .ok ((), modProm st pid fun q => { q with status := Status.rejected })) ∧
    (∀ (rest : List Nat) (i : Nat) (st : St) (e : JSVal) (fuel : Nat),
      chainNoFail st (i :: rest) → (i :: rest).Nodup →
      ∃ stF, abandon (fuel + rest.length + 1) i e false st = .ok ((), stF) ∧
        ∀ j ∈ i :: rest, ∃ p, getProm st j = some p ∧
          (getProm stF j).map (·.value) = some p.value ∧
          (getProm stF j).map (·.status) = some Status.rejected) := by
  constructor
  · intro fuel pid st p e force hget hof hnx hcond
    have hng : ¬(p.status ≠ Status.waiting ∧ force = false) := by
      rcases hcond with hw | hf
      · simp [hw]
      · simp [hf]
    simp only [abandon, hget]
    rw [if_neg hng]
    simp only [hof, hnx]
  · intro rest i st e fuel hch hnd
    refine ⟨rejectAll st (i :: rest), abandon_chainNoFail rest i st e fuel hch hnd, ?_⟩
    intro j hj
    obtain ⟨p, hp, -, -⟩ := chainNoFail_mem _ _ _ hch hj
    refine ⟨p, hp, ?_, ?_⟩ <;> rw [getProm_rejectAll_mem _ _ _ _ hnd hj hp] <;> rfl

/-- Concrete instantiation of the C10 theorem: rejecting a handler-less
future that holds `9` flips only its status; its stored value stays `9`. -/
theorem c10_value_frame_witness :
    (abandon 1 0 (.str "err") false
        { proms := [{ value := .num 9, status := .waiting, owed := none,
                      next := none, onFail := none }], log := [] }
      = .ok ((), modProm
          { proms := [{ value := .num 9, status := .waiting, owed := none,
                        next := none, onFail := none }], log := [] }
          0 fun q => { q with status := Status.rejected })) ∧
    (∃ stF, abandon 6 0 (.str "err") false
        { proms := [{ value := .num 9, status := .waiting, owed := some (spyFn 1),
                      next := some 1, onFail := none },
                    { value := .num 4, status := .waiting, owed := none,
                      next := none, onFail := none }], log := [] }
        = .ok ((), stF) ∧
      ∀ j ∈ ([0, 1] : List Nat), ∃ p, getProm
          { proms := [{ value := .num 9, status := .waiting, owed := some (spyFn 1),
                        next := some 1, onFail := none },
                      { value := .num 4, status := .waiting, owed := none,
                        next := none, onFail := none }], log := [] } j = some p ∧
        (getProm stF j).map (·.value) = some p.value ∧
        (getProm stF j).map (·.status) = some Status.rejected) :=
  ⟨c10_value_frame.1 0 0 _ _ (.str "err") false rfl rfl rfl (Or.inl rfl),
   c10_value_frame.2 [1] 0 _ (.str "err") 4
     ⟨⟨rfl, rfl, rfl⟩, ⟨rfl, rfl, rfl⟩⟩ (by decide)⟩

/-! ### Claim C3: failure forwarding to the first handler -/

/-- C3: rejecting a future with no local failure continuation propagates the
rejection verbatim through the `next` chain until the first future `q` with a
registered failure continuation: every link is marked `Rejected`, `q` stores
the error in `value` and is marked `Rejected`, and the call continues exactly
as the failure continuation of `q` applied to the original error -- so that
handler is invoked with the error. -/
theorem c3_failure_forwarding (rest : List Nat) (i q : Nat) (st : St) (e : JSVal)
    (c : ContFn) (pq : PromObj) (fuel : Nat)
    (hch : chainToHandler st (i :: rest) q) (hnd : (i :: rest).Nodup)
    (hq : q ∉ i :: rest) (hgq : getProm st q = some pq)
    (hwq : pq.status = Status.waiting) (hofq : pq.onFail = some c) :
    abandon (fuel + rest.length + 2) i e false st =
      (match runProg fuel (c e)
          (modProm (modProm (rejectAll st (i :: rest)) q
              fun r => { r with status := Status.rejected }) q
            fun r => { r with value := e }) with
       | .error err => .error err
       | .ok (_, s) => .ok ((), s)) := by
  have h1 : abandon ((fuel+1) + rest.length + 1) i e false st =
      (match abandon (fuel+1) q e false (rejectAll st (i :: rest)) with
       | .error err => .error err
       | .ok (_, s) => .ok ((), s)) :=
    abandon_chain_forward rest i st e (fuel+1) q hch hnd hq
  have h2 : abandon (fuel+1) q e false (rejectAll st (i :: rest)) =
      (match runProg fuel (c e)
          (modProm (modProm (rejectAll st (i :: rest)) q
              fun r => { r with status := Status.rejected }) q
            fun r => { r with value := e }) with
       | .error err => .error err
       | .ok (_, s) => .ok ((), s)) :=
    abandon_at_handler (by rw [getProm_rejectAll_notMem _ _ _ hq]; exact hgq) hwq hofq
  rw [show fuel + rest.length + 2 = (fuel+1) + rest.length + 1 from by omega]
  rw [h1, h2]
  rcases hrp : runProg fuel (c e)
      (modProm (modProm (rejectAll st (i :: rest)) q
          fun r => { r with status := Status.rejected }) q
        fun r => { r with value := e }) with err | ⟨v, s⟩ <;> rfl

/-- Concrete instantiation of the C3 theorem on the chain of the spec
example: for `a.then(x => x)` with `.catch(onErr)` on the returned future,
rejecting `a` with the string `boom` invokes the handler with `boom` -- the
run ends with exactly the observation `(2, boom)` in the log and both
promises `Rejected`. -/
theorem c3_failure_forwarding_witness :
    chainToHandler
      { proms := [{ value := .undef, status := .waiting, owed := some (spyFn 1),
                    next := some 1, onFail := none },
                  { value := .undef, status := .waiting, owed := none,
                    next := none, onFail := some (spyFn 2) }], log := [] } [0] 1 ∧
    (abandon 5 0 (.str "boom") false
        { proms := [{ value := .undef, status := .waiting, owed := some (spyFn 1),
                      next := some 1, onFail := none },
                    { value := .undef, status := .waiting, owed := none,
                      next := none, onFail := some (spyFn 2) }], log := [] }
      = (match runProg 3 (spyFn 2 (.str "boom"))
            (modProm (modProm (rejectAll
                { proms := [{ value := .undef, status := .waiting, owed := some (spyFn 1),
                              next := some 1, onFail := none },
                            { value := .undef, status := .waiting, owed := none,
                              next := none, onFail := some (spyFn 2) }], log := [] } [0]) 1
                fun r => { r with status := Status.rejected }) 1
              fun r => { r with value := .str "boom" }) with
         | .error err => .error err
         | .ok (_, s) => .ok ((), s))) ∧
    abandon 5 0 (.str "boom") false
        { proms := [{ value := .undef, status := .waiting, owed := some (spyFn 1),
                      next := some 1, onFail := none },
                    { value := .undef, status := .waiting, owed := none,
                      next := none, onFail := some (spyFn 2) }], log := [] }
      = .ok ((), { proms := [{ value := .undef, status := .rejected, owed := some (spyFn 1),
                               next := some 1, onFail := none },
                             { value := .str "boom", status := .rejected, owed := none,
                               next := none, onFail := some (spyFn 2) }],
                   log := [(2, .str "boom")] }) :=
  ⟨⟨rfl, rfl, rfl⟩,
   c3_failure_forwarding [] 0 1 _ (.str "boom") (spyFn 2) _ 3
     ⟨rfl, rfl, rfl⟩ (by decide) (by decide) rfl rfl rfl,
   rfl⟩

/-! ### Registration and settlement step lemmas -/

theorem length_alloc (st : St) (p : PromObj) :
    (allocProm st p).2.proms.length = st.proms.length + 1 := by
  simp [allocProm]

theorem log_pushLog (st : St) (e : Nat × JSVal) : (pushLog st e).log = st.log ++ [e] := rfl

/-- One `then` registration on a pending promise with nothing registered yet
(source lines 28-55, no forced path): store the continuation, allocate the
next deferred, link it, return the next promise. -/
theorem then_registers {n pid : Nat} {st : St} {p : PromObj} (success : Option ContFn)
    (hget : getProm st pid = some p) (howed : p.owed = none)
    (hw : p.status = Status.waiting) :
    thenFn (n+1) pid success none st =
      .ok (st.proms.length,
        modProm (allocProm (modProm st pid fun r => { r with owed := success })
            PromObj.init).2 pid
          fun r => { r with next := some st.proms.length }) := by
  have hga : getProm (allocProm (modProm st pid fun r => { r with owed := success })
      PromObj.init).2 pid = some { p with owed := success } := by
    rw [getProm_alloc, length_modProm]
    rw [if_neg (Nat.ne_of_lt (getProm_some_lt hget))]
    exact getProm_modProm_self _ hget
  have hg3 : getProm (modProm (allocProm (modProm st pid fun r => { r with owed := success })
      PromObj.init).2 pid fun r => { r with next := some st.proms.length }) pid
      = some { p with owed := success, next := some st.proms.length } :=
    getProm_modProm_self _ hga
  simp only [thenFn, hget]
  rw [if_neg (by simp [howed])]
  simp only [length_modProm, hg3]
  rw [if_neg (by simp [hw])]
  simp only [hg3]

/-- The promise record after one `then` registration on a pending promise. -/
theorem getProm_then_result {st : St} {pid : Nat} {p : PromObj} (success : Option ContFn)
    (hget : getProm st pid = some p) :
    getProm (modProm (allocProm (modProm st pid fun r => { r with owed := success })
        PromObj.init).2 pid fun r => { r with next := some st.proms.length }) pid
      = some { p with owed := success, next := some st.proms.length } := by
  have hga : getProm (allocProm (modProm st pid fun r => { r with owed := success })
      PromObj.init).2 pid = some { p with owed := success } := by
    rw [getProm_alloc, length_modProm]
    rw [if_neg (Nat.ne_of_lt (getProm_some_lt hget))]
    exact getProm_modProm_self _ hget
  exact getProm_modProm_self _ hga

/-- One `catch` registration on a promise that is not rejected and has no
failure continuation yet (source lines 62-78, no forced path): store the
continuation, nothing else. -/
theorem catch_registers {n pid : Nat} {st : St} {p : PromObj} (failure : Option ContFn)
    (hget : getProm st pid = some p) (hof : p.onFail = none)
    (hst : p.status ≠ Status.rejected) :
    catchFn (n+1) pid failure st =
      .ok ((), modProm st pid fun r => { r with onFail := failure }) := by
  simp only [catchFn, hget]
  rw [if_neg (by simp [hof])]
  rw [if_neg hst]

/-- One non-forced `fulfill` on a pending promise with no success
continuation (source lines 84-98): the whole effect is the status flip; the
datum is not stored anywhere. -/
theorem fulfill_nocont {n pid : Nat} {st : St} {p : PromObj} {data : JSVal}
    (hget : getProm st pid = some p) (hw : p.status = Status.waiting)
    (howed : p.owed = none) :
    fulfill (n+1) pid data false st =
      .ok ((), modProm st pid fun r => { r with status := Status.resolved }) := by
  simp only [fulfill, hget]
  rw [if_neg (by simp [hw])]
  simp only [howed]

/-- One non-forced `fulfill` on a pending promise with a stored success
continuation `c` (source lines 84-113): flip the status, run `c` on the
datum, store its return value, and on a future-like return wire the next
deferred to it. -/
theorem fulfill_cont_step {n pid : Nat} {st : St} {p : PromObj} {c : ContFn} {data : JSVal}
    (hget : getProm st pid = some p) (hw : p.status = Status.waiting)
    (howed : p.owed = some c) :
    fulfill (n+1) pid data false st =
      (match runProg n (c data)
          (modProm st pid fun r => { r with status := Status.resolved }) with
       | .error e => .error e
       | .ok (v, st2) =>
         match v.asProm with
         | none => .ok ((), modProm st2 pid fun r => { r with value := v })
         | some qq =>
           match getProm (modProm st2 pid fun r => { r with value := v }) pid with
           | none => .error .typeErr
           | some pNow =>
             match pNow.next with
             | none => .error .typeErr
             | some nid =>
               match thenFn n qq (some (resolveDFn nid)) none
                   (modProm st2 pid fun r => { r with value := v }) with
               | .error e => .error e
               | .ok (_, st4) =>
                 match catchFn n qq (some (rejectDFn nid)) st4 with
                 | .error e => .error e
                 | .ok (_, st5) => .ok ((), st5)) := by
  simp only [fulfill, hget]
  rw [if_neg (by simp [hw])]
  simp only [howed]

/-! ### Claim C9: falsy continuation registration -/

/-- C9: the single-registration guards test the truthiness of the stored
handler (`if (this.owed)`, `if (this.onFail)`), not whether a registration
call occurred.  After a `.then` with a falsy success argument (modelled by
`none`), a second `.then` on the same future does not raise the
double-registration error; it succeeds and overwrites both the stored
continuation and the `next` future with a fresh, different promise.
Likewise `.catch` with a falsy handler leaves the double-catch check
un-armed, and a later `.catch` succeeds and stores its handler. -/
theorem c9_falsy_guard :
    (∀ (n m pid : Nat) (st : St) (p : PromObj) (c : ContFn),
      getProm st pid = some p → p.owed = none → p.status = Status.waiting →
      ∃ st1 st2, thenFn (n+1) pid none none st = .ok (st.proms.length, st1) ∧
        thenFn (m+1) pid (some c) none st1 = .ok (st1.proms.length, st2) ∧
        st1.proms.length = st.proms.length + 1 ∧
        getProm st1 pid = some { p with owed := none, next := some st.proms.length } ∧
        getProm st2 pid
          = some { p with owed := some c, next := some st1.proms.length }) ∧
    (∀ (n m pid : Nat) (st : St) (p : PromObj) (h : ContFn),
      getProm st pid = some p → p.onFail = none → p.status ≠ Status.rejected →
      ∃ st1, catchFn (n+1) pid none st = .ok ((), st1) ∧
        getProm st1 pid = some { p with onFail := none } ∧
        catchFn (m+1) pid (some h) st1 =
          .ok ((), modProm st1 pid fun r => { r with onFail := some h })) := by
  constructor
  · intro n m pid st p c hget howed hw
    have hg1 := getProm_then_result none hget
    have hg2 := getProm_then_result (some c) hg1
    refine ⟨_, _, then_registers none hget howed hw,
      then_registers (some c) hg1 rfl hw, ?_, hg1, hg2⟩
    simp only [length_modProm, length_alloc]
  · intro n m pid st p h hget hof hst
    have hg1 : getProm (modProm st pid fun r => { r with onFail := (none : Option ContFn) })
        pid = some { p with onFail := none } := getProm_modProm_self _ hget
    exact ⟨_, catch_registers none hget hof hst, hg1, catch_registers (some h) hg1 rfl hst⟩

/-- Concrete instantiation of the C9 theorem on a fresh deferred promise. -/
theorem c9_falsy_guard_witness :
    (∃ st1 st2, thenFn 1 0 none none { proms := [PromObj.init], log := [] }
        = .ok (1, st1) ∧
      thenFn 1 0 (some (spyFn 4)) none st1 = .ok (st1.proms.length, st2) ∧
      st1.proms.length = 2 ∧
      getProm st1 0 = some { PromObj.init with owed := none, next := some 1 } ∧
      getProm st2 0
        = some { PromObj.init with owed := some (spyFn 4), next := some st1.proms.length }) ∧
    (∃ st1, catchFn 1 0 none { proms := [PromObj.init], log := [] } = .ok ((), st1) ∧
      getProm st1 0 = some { PromObj.init with onFail := none } ∧
      catchFn 1 0 (some (spyFn 5)) st1 =
        .ok ((), modProm st1 0 fun r => { r with onFail := some (spyFn 5) })) :=
  ⟨c9_falsy_guard.1 0 0 0 _ PromObj.init (spyFn 4) rfl rfl rfl,
   c9_falsy_guard.2 0 0 0 _ PromObj.init (spyFn 5) rfl rfl (by decide)⟩

/-! ### Claim C8: identity status tags, classification ignores `value` -/

/-- C8: the three runtime status tags are pairwise distinct (by identity),
and every status check in `then` / `catch` / `fulfill` / `abandon` reads
only the `status` field, never `value`.  Hence a `Resolved` future whose
stored value is the `Rejected` tag itself -- or any value at all -- is never
classified as rejected: `.catch` on it only registers (the forced rejection
path is not taken, whatever `value` holds), while `.then` on it fires the
success continuation, handing it that stored tag value. -/
theorem c8_identity_tags :
    (Status.waiting ≠ Status.resolved ∧ Status.waiting ≠ Status.rejected ∧
      Status.resolved ≠ Status.rejected) ∧
    (∀ (n pid : Nat) (st : St) (p : PromObj) (c : ContFn),
      getProm st pid = some p → p.onFail = none → p.status = Status.resolved →
      catchFn (n+1) pid (some c) st =
        .ok ((), modProm st pid fun r => { r with onFail := some c })) ∧
    (∀ (tag n : Nat), ∃ r stF,
      runProg (n+9) (.newResolved (.statusTag .rejected) fun pr =>
        .doThen pr (spyFn tag) fun _ => .ret .undef) st0 = .ok (r, stF) ∧
      stF.log = [(tag, .statusTag .rejected)] ∧
      (getProm stF 0).map (·.status) = some Status.resolved) := by
  refine ⟨⟨by decide, by decide, by decide⟩, ?_, ?_⟩
  · intro n pid st p c hget hof hst
    exact catch_registers (some c) hget hof (by simp [hst])
  · intro tag n
    exact ⟨_, _, rfl, rfl, rfl⟩

/-- Concrete instantiation of the C8 theorem: a resolved future holding the
`Rejected` tag as its value is not treated as rejected by `.catch`, and its
success side fires with that value. -/
theorem c8_identity_tags_witness :
    (catchFn 1 0 (some (spyFn 3))
        { proms := [{ value := .statusTag .rejected, status := .resolved, owed := none,
                      next := none, onFail := none }], log := [] }
      = .ok ((), modProm
          { proms := [{ value := .statusTag .rejected, status := .resolved, owed := none,
                        next := none, onFail := none }], log := [] }
          0 fun r => { r with onFail := some (spyFn 3) })) ∧
    (∃ r stF, runProg 9 (.newResolved (.statusTag .rejected) fun pr =>
        .doThen pr (spyFn 3) fun _ => .ret .undef) st0 = .ok (r, stF) ∧
      stF.log = [(3, .statusTag .rejected)] ∧
      (getProm stF 0).map (·.status) = some Status.resolved) :=
  ⟨c8_identity_tags.2.1 0 0 _ _ (spyFn 3) rfl rfl rfl,
   c8_identity_tags.2.2 3 0⟩

/-! ### Claim C2: late registration (corrected) -/

/-- C2 counterexample: the claim says registering after settlement behaves
identically to registering before settlement.  On a deferred resolved with
`42` while no continuation was registered, a late `.then` invokes its
continuation with `undefined` (the datum was never stored, source lines
97-99 assign `value` only inside `if (this.owed)`), while early registration
invokes it with `42`: the two observable behaviors differ. -/
theorem c2_counterexample :
    runLog 9 (.newDefer fun d => .doResolve d (.num 42)
        (.doThen d (spyFn 1) fun _ => .ret .undef)) = some [(1, .undef)] ∧
    runLog 9 (.newDefer fun d => .doThen d (spyFn 1) fun _ =>
        .doResolve d (.num 42) (.ret .undef)) = some [(1, .num 42)] ∧
    runLog 9 (.newDefer fun d => .doResolve d (.num 42)
        (.doThen d (spyFn 1) fun _ => .ret .undef)) ≠
      runLog 9 (.newDefer fun d => .doThen d (spyFn 1) fun _ =>
        .doResolve d (.num 42) (.ret .undef)) :=
  ⟨rfl, rfl, by decide⟩

/-- C2 (amended): registering a continuation on an already-settled future
triggers immediate synchronous invocation via the forced-override
transition -- never a silent skip -- passing the stored `value` of the future
field.  For futures created already settled (`createResolved` /
`createRejected`) the stored value is the settlement datum, so late
registration behaves exactly like early registration; but for a `Deferred`
settled while no continuation was registered, `fulfill`/`abandon` never
stored the datum (source lines 97-99 and 126-137), so the late continuation
is invoked with `undefined` instead of the datum. -/
theorem c2_late_registration :
    (∀ (v : JSVal) (tag n : Nat), v.asProm = none →
      runLog (n+9) (.newResolved v fun pr => .doThen pr (spyFn tag) fun _ => .ret .undef)
        = some [(tag, v)]) ∧
    (∀ (v : JSVal) (tag n : Nat),
      runLog (n+9) (.newRejected v fun pr => .doCatch pr (spyFn tag) (.ret .undef))
        = some [(tag, v)]) ∧
    (∀ (v : JSVal) (tag n : Nat), v.asProm = none →
      runLog (n+9) (.newDefer fun d => .doThen d (spyFn tag) fun _ =>
        .doResolve d v (.ret .undef)) = some [(tag, v)]) ∧
    (∀ (v : JSVal) (tag n : Nat),
      runLog (n+9) (.newDefer fun d => .doResolve d v
        (.doThen d (spyFn tag) fun _ => .ret .undef)) = some [(tag, .undef)]) ∧
    (∀ (v : JSVal) (tag n : Nat),
      runLog (n+9) (.newDefer fun d => .doReject d v
        (.doCatch d (spyFn tag) (.ret .undef))) = some [(tag, .undef)]) := by
  refine ⟨?_, ?_, ?_, ?_, ?_⟩
  · intro v tag n hv
    cases v <;> first | rfl | exact absurd hv (by simp [JSVal.asProm])
  · intro v tag n
    rfl
  · intro v tag n hv
    cases v <;> first | rfl | exact absurd hv (by simp [JSVal.asProm])
  · intro v tag n
    rfl
  · intro v tag n
    rfl

/-- Concrete instantiation of the C2 amended theorem: late `.then` on
`createResolved(42)` sees `42`; late `.then` after a bare deferred resolve
of `42` sees `undefined`. -/
theorem c2_late_registration_witness :
    runLog 9 (.newResolved (.num 42) fun pr => .doThen pr (spyFn 1) fun _ => .ret .undef)
      = some [(1, .num 42)] ∧
    runLog 9 (.newDefer fun d => .doResolve d (.num 42)
      (.doThen d (spyFn 2) fun _ => .ret .undef)) = some [(2, .undef)] :=
  ⟨c2_late_registration.1 (.num 42) 1 0 rfl,
   c2_late_registration.2.2.2.1 (.num 42) 2 0⟩

/-! ### Claim C1: success forwarding (corrected) -/

/-- The test continuation `n => n + 1` of the spec example (JavaScript
numeric increment; only ever invoked with numbers in the example run). -/
def jsAdd1 : JSVal → JSVal
  | .num k => .num (k+1)
  | v => v

/-- The spec example chain
`f.then(() => createResolved(1).then(n => n + 1)).then(result => result)`,
driven by resolving the deferred of `f`; the final continuation is a spy so
that any value delivered to the outer chain is observable in the log. -/
def c1prog : Prog :=
  .newDefer fun f =>
    .doThen f (fun _ => .newResolved (.num 1) fun p =>
        .doThen p (fun nv => .ret (jsAdd1 nv)) fun q => .ret (.prom q)) fun p1 =>
      .doThen p1 (spyFn 7) fun p2 =>
        .doResolve f (.num 0) (.ret (.prom p2))

/-- C1 counterexample: running the spec example chain delivers nothing to
the outer chain.  The spy of the final `.then` never fires (the log stays
empty) and the outer promise (reference 2) stays `Waiting` forever, even
though the inner chain did compute `2` (stored as the value of the inner
`createResolved` promise, reference 3).  The claim says the outer chain
receives `2`, which would put `(7, 2)` into the log. -/
theorem c1_counterexample :
    runLog 30 c1prog = some [] ∧
    runStatus 30 c1prog 2 = some Status.waiting ∧
    runValue 30 c1prog 3 = some (.num 2) ∧
    runLog 30 c1prog ≠ some [(7, .num 2)] :=
  ⟨rfl, rfl, rfl, by decide⟩

/-- Allocation leaves existing promises readable unchanged. -/
theorem getProm_alloc_lt {st : St} {p : PromObj} {j : Nat} (h : j < st.proms.length) :
    getProm (allocProm st p).2 j = getProm st j := by
  rw [getProm_alloc]
  exact if_neg (Nat.ne_of_lt h)

/-- C1 (amended): resolving a future `f` whose success continuation `s` is
registered invokes `s(d)` synchronously within the same call and stores the
return value as the `value` of `f`; but that return value is used to settle
the `next` future of `f` only when it is future-like.  (1) When `s` returns a plain
value, the whole effect is: status flip, one synchronous continuation call,
value stored -- `next` (and everything else) is untouched, so the plain
value is not forwarded.  (2) When `s` returns an existing future `q`,
the deferred resolve and reject of `next` are registered on `q` as its
success/failure continuations (plus a fresh chain promise for `q`), and
`next` itself stays untouched for now.  (3) Subsequently resolving such a
wired `q` resolves `next` (matching success), and (4) rejecting it rejects
`next` (matching failure): settlement of `next` is deferred until the
returned future settles. -/
theorem c1_success_forwarding :
    (∀ (st : St) (pid tag n : Nat) (p : PromObj) (data : JSVal),
      getProm st pid = some p → p.status = Status.waiting →
      p.owed = some (spyFn tag) → data.asProm = none →
      fulfill (n+3) pid data false st =
        .ok ((), modProm (pushLog (modProm st pid
            fun r => { r with status := Status.resolved }) (tag, data)) pid
          fun r => { r with value := data })) ∧
    (∀ (st : St) (pid nid q n : Nat) (p pq pn : PromObj) (data : JSVal),
      getProm st pid = some p → p.status = Status.waiting →
      p.owed = some (constPromFn q) → p.next = some nid →
      getProm st q = some pq → pq.status = Status.waiting → pq.owed = none →
      pq.onFail = none → getProm st nid = some pn →
      q ≠ pid → nid ≠ pid → nid ≠ q →
      ∃ stF, fulfill (n+4) pid data false st = .ok ((), stF) ∧
        getProm stF q = some { pq with owed := some (resolveDFn nid), next := some st.proms.length, onFail := some (rejectDFn nid) } ∧
        (getProm stF pid).map (·.value) = some (.prom q) ∧
        getProm stF nid = some pn ∧
        stF.log = st.log) ∧
    (∀ (st : St) (q nid n : Nat) (pq pn : PromObj) (w : JSVal),
      getProm st q = some pq → pq.status = Status.waiting →
      pq.owed = some (resolveDFn nid) →
      getProm st nid = some pn → pn.status = Status.waiting → pn.owed = none →
      nid ≠ q → w.asProm = none →
      ∃ stF, fulfill (n+3) q w false st = .ok ((), stF) ∧
        (getProm stF nid).map (·.status) = some Status.resolved) ∧
    (∀ (st : St) (q nid n : Nat) (pq pn : PromObj) (e : JSVal),
      getProm st q = some pq → pq.status = Status.waiting →
      pq.onFail = some (rejectDFn nid) →
      getProm st nid = some pn → pn.status = Status.waiting → pn.onFail = none →
      pn.next = none → nid ≠ q →
      ∃ stF, abandon (n+3) q e false st = .ok ((), stF) ∧
        (getProm stF nid).map (·.status) = some Status.rejected ∧
        (getProm stF q).map (·.value) = some e) := by
  refine ⟨?_, ?_, ?_, ?_⟩
  -- (1) plain return value: stored, not forwarded
  · intro st pid tag n p data hget hw howed hdata
    show fulfill ((n+2)+1) pid data false st = _
    rw [fulfill_cont_step hget hw howed]
    simp only [spyFn, runProg, hdata]
  -- (2) future-like return value: wiring only
  · intro st pid nid q n p pq pn data hget hw howed hnx hgq hwq hoq hofq hgn
      hqpid hnidpid hnidq
    have hg3 : getProm (modProm (modProm st pid
        fun r => { r with status := Status.resolved }) pid
        fun r => { r with value := JSVal.prom q }) pid
        = some { p with status := Status.resolved, value := .prom q } :=
      getProm_modProm_self _ (getProm_modProm_self _ hget)
    have hgq3 : getProm (modProm (modProm st pid
        fun r => { r with status := Status.resolved }) pid
        fun r => { r with value := JSVal.prom q }) q = some pq := by
      rw [getProm_modProm_ne _ hqpid, getProm_modProm_ne _ hqpid]
      exact hgq
    have hgq4 := getProm_then_result (some (resolveDFn nid)) hgq3
    have hstep : fulfill ((n+3)+1) pid data false st =
        (match thenFn (n+3) q (some (resolveDFn nid)) none
            (modProm (modProm st pid fun r => { r with status := Status.resolved }) pid
              fun r => { r with value := JSVal.prom q }) with
         | .error e => .error e
         | .ok (_, st4) =>
           match catchFn (n+3) q (some (rejectDFn nid)) st4 with
           | .error e => .error e
           | .ok (_, st5) => .ok ((), st5)) := by
      rw [fulfill_cont_step hget hw howed]
      simp only [constPromFn, runProg, JSVal.asProm, hg3, hnx]
    rw [show n+4 = (n+3)+1 from rfl, hstep]
    rw [show n+3 = (n+2)+1 from rfl]
    rw [then_registers (some (resolveDFn nid)) hgq3 hoq hwq]
    dsimp only
    rw [catch_registers (some (rejectDFn nid)) hgq4 hofq (by simp [hwq])]
    dsimp only
    refine ⟨_, rfl, ?_, ?_, ?_, ?_⟩
    · rw [getProm_modProm_self _ hgq4]
      simp only [length_modProm]
    · rw [getProm_modProm_ne _ (Ne.symm hqpid)]
      rw [getProm_modProm_ne _ (Ne.symm hqpid)]
      rw [getProm_alloc_lt (by simp only [length_modProm]; exact getProm_some_lt hget)]
      rw [getProm_modProm_ne _ (Ne.symm hqpid)]
      rw [hg3]
      rfl
    · rw [getProm_modProm_ne _ hnidq]
      rw [getProm_modProm_ne _ hnidq]
      rw [getProm_alloc_lt (by simp only [length_modProm]; exact getProm_some_lt hgn)]
      rw [getProm_modProm_ne _ hnidq, getProm_modProm_ne _ hnidpid,
        getProm_modProm_ne _ hnidpid]
      exact hgn
    · simp only [log_modProm, log_alloc]
  -- (3) deferred success: resolving the wired future resolves next
  · intro st q nid n pq pn w hgq hwq howq hgn hwn hon hnidq hw2
    have hga : getProm (modProm st q fun r => { r with status := Status.resolved }) nid
        = some pn := by
      rw [getProm_modProm_ne _ hnidq]
      exact hgn
    have hstep : fulfill ((n+2)+1) q w false st =
        .ok ((), modProm (modProm (modProm st q
            fun r => { r with status := Status.resolved }) nid
            fun r => { r with status := Status.resolved }) q
          fun r => { r with value := .undef }) := by
      rw [fulfill_cont_step hgq hwq howq]
      simp only [resolveDFn]
      rw [show n+2 = (n+1)+1 from rfl]
      simp only [runProg]
      rw [fulfill_nocont hga hwn hon]
      simp only [runProg, JSVal.asProm]
    refine ⟨_, hstep, ?_⟩
    rw [getProm_modProm_ne _ hnidq]
    rw [getProm_modProm_self _ hga]
    rfl
  -- (4) deferred failure: rejecting the wired future rejects next
  · intro st q nid n pq pn e hgq hwq hofq hgn hwn hofn hnxn hnidq
    have hga : getProm (modProm (modProm st q
        fun r => { r with status := Status.rejected }) q
        fun r => { r with value := e }) nid = some pn := by
      rw [getProm_modProm_ne _ hnidq, getProm_modProm_ne _ hnidq]
      exact hgn
    have hgqv : getProm (modProm (modProm st q
        fun r => { r with status := Status.rejected }) q
        fun r => { r with value := e }) q
        = some { pq with status := Status.rejected, value := e } :=
      getProm_modProm_self _ (getProm_modProm_self _ hgq)
    have hstep : abandon ((n+2)+1) q e false st =
        .ok ((), modProm (modProm (modProm st q
            fun r => { r with status := Status.rejected }) q
            fun r => { r with value := e }) nid
          fun r => { r with status := Status.rejected }) := by
      rw [abandon_at_handler hgq hwq hofq]
      simp only [rejectDFn]
      rw [show n+2 = (n+1)+1 from rfl]
      simp only [runProg]
      rw [abandon_step_drop hga hwn hofn hnxn]
    refine ⟨_, hstep, ?_, ?_⟩
    · rw [getProm_modProm_self _ hga]
      rfl
    · rw [getProm_modProm_ne _ (Ne.symm hnidq)]
      rw [hgqv]
      rfl

/-- Concrete instantiation of the C1 amended theorem: a plain return value is
stored but not forwarded; a future-like return value wires `next` onto the
returned future; settling the wired future settles `next` with matching
status. -/
theorem c1_success_forwarding_witness :
    (fulfill 3 0 (.num 5) false
        { proms := [{ value := .undef, status := .waiting, owed := some (spyFn 3),
                      next := some 1, onFail := none }, PromObj.init], log := [] }
      = .ok ((), modProm (pushLog (modProm
          { proms := [{ value := .undef, status := .waiting, owed := some (spyFn 3),
                        next := some 1, onFail := none }, PromObj.init], log := [] }
          0 fun r => { r with status := Status.resolved }) (3, .num 5)) 0
          fun r => { r with value := .num 5 })) ∧
    (∃ stF, fulfill 4 0 (.num 0) false
        { proms := [{ value := .undef, status := .waiting, owed := some (constPromFn 2),
                      next := some 1, onFail := none }, PromObj.init,
                    { value := .num 1, status := .waiting, owed := none,
                      next := none, onFail := none }], log := [] }
        = .ok ((), stF) ∧
      getProm stF 2 = some { value := .num 1, status := Status.waiting, owed := some (resolveDFn 1), next := some 3, onFail := some (rejectDFn 1) } ∧
      (getProm stF 0).map (·.value) = some (.prom 2) ∧
      getProm stF 1 = some PromObj.init ∧
      stF.log = []) ∧
    (∃ stF, fulfill 3 0 (.num 8) false
        { proms := [{ value := .undef, status := .waiting, owed := some (resolveDFn 1),
                      next := none, onFail := none }, PromObj.init], log := [] }
        = .ok ((), stF) ∧
      (getProm stF 1).map (·.status) = some Status.resolved) ∧
    (∃ stF, abandon 3 0 (.str "x") false
        { proms := [{ value := .undef, status := .waiting, owed := none,
                      next := none, onFail := some (rejectDFn 1) }, PromObj.init], log := [] }
        = .ok ((), stF) ∧
      (getProm stF 1).map (·.status) = some Status.rejected ∧
      (getProm stF 0).map (·.value) = some (.str "x")) :=
  ⟨c1_success_forwarding.1
     { proms := [{ value := .undef, status := .waiting, owed := some (spyFn 3),
                   next := some 1, onFail := none }, PromObj.init], log := [] }
     0 3 0
     { value := .undef, status := .waiting, owed := some (spyFn 3),
       next := some 1, onFail := none }
     (.num 5) rfl rfl rfl rfl,
   c1_success_forwarding.2.1
     { proms := [{ value := .undef, status := .waiting, owed := some (constPromFn 2),
                   next := some 1, onFail := none }, PromObj.init,
                 { value := .num 1, status := .waiting, owed := none,
                   next := none, onFail := none }], log := [] }
     0 1 2 0
     { value := .undef, status := .waiting, owed := some (constPromFn 2),
       next := some 1, onFail := none }
     { value := .num 1, status := .waiting, owed := none,
       next := none, onFail := none }
     PromObj.init (.num 0)
     rfl rfl rfl rfl rfl rfl rfl rfl rfl (by decide) (by decide) (by decide),
   c1_success_forwarding.2.2.1
     { proms := [{ value := .undef, status := .waiting, owed := some (resolveDFn 1),
                   next := none, onFail := none }, PromObj.init], log := [] }
     0 1 0
     { value := .undef, status := .waiting, owed := some (resolveDFn 1),
       next := none, onFail := none }
     PromObj.init (.num 8)
     rfl rfl rfl rfl rfl rfl (by decide) rfl,
   c1_success_forwarding.2.2.2
     { proms := [{ value := .undef, status := .waiting, owed := none,
                   next := none, onFail := some (rejectDFn 1) }, PromObj.init], log := [] }
     0 1 0
     { value := .undef, status := .waiting, owed := none,
       next := none, onFail := some (rejectDFn 1) }
     PromObj.init (.str "x")
     rfl rfl rfl rfl rfl rfl rfl (by decide)⟩

/-! ### Claim C5: the error-first callback adapter -/

/-- C5: one invocation of the function returned by
`adaptErrorFirstCallback(fn, context)` always synchronously returns the
fresh deferred promise, whether the wrapped function fires its completion
callback during the call, later, or never.  When the callback fires with a
truthy error, the promise is rejected with that error (a failure
continuation registered beforehand receives exactly the error); when the
error slot is `null`, the promise is resolved with the data (a success
continuation registered beforehand receives exactly the data). -/
theorem c5_adapter :
    (∀ (ns : List JSVal → CbOutcome) (args : List JSVal) (n : Nat) (st : St),
      ∃ stR, promisifyCall ns args (n+1) st = .ok (st.proms.length, stR)) ∧
    (∀ (data : JSVal) (tag n : Nat), data.asProm = none →
      ∃ stF, failableCb (n+3) 0 .nullV data
          { proms := [{ value := .undef, status := .waiting, owed := some (spyFn tag),
                        next := some 1, onFail := none }, PromObj.init], log := [] }
        = .ok ((), stF) ∧
        stF.log = [(tag, data)] ∧
        (getProm stF 0).map (·.status) = some Status.resolved) ∧
    (∀ (err data : JSVal) (tag n : Nat), err.truthy = true →
      ∃ stF, failableCb (n+3) 0 err data
          { proms := [{ value := .undef, status := .waiting, owed := none,
                        next := none, onFail := some (spyFn tag) }], log := [] }
        = .ok ((), stF) ∧
        stF.log = [(tag, err)] ∧
        (getProm stF 0).map (·.status) = some Status.rejected) := by
  refine ⟨?_, ?_, ?_⟩
  · intro ns args n st
    have hgd : getProm (allocProm st PromObj.init).2 st.proms.length = some PromObj.init := by
      rw [getProm_alloc]
      simp
    have h1 : (allocProm st PromObj.init).1 = st.proms.length := rfl
    simp only [promisifyCall, defer]
    cases ho : ns args with
    | fires errv datav =>
      simp only [failableCb, h1]
      cases ht : errv.truthy with
      | true =>
        rw [if_pos rfl]
        rw [abandon_step_drop hgd rfl rfl rfl]
        exact ⟨_, rfl⟩
      | false =>
        rw [if_neg (by simp)]
        rw [fulfill_nocont hgd rfl rfl]
        exact ⟨_, rfl⟩
    | never =>
      exact ⟨_, rfl⟩
  · intro data tag n hdata
    cases data <;>
      first
        | exact ⟨_, rfl, rfl, rfl⟩
        | exact absurd hdata (by simp [JSVal.asProm])
  · intro err data tag n herr
    have hstep : failableCb (n+3) 0 err data
        { proms := [{ value := .undef, status := .waiting, owed := none,
                      next := none, onFail := some (spyFn tag) }], log := [] }
        = .ok ((), pushLog (modProm (modProm
            { proms := [{ value := .undef, status := .waiting, owed := none,
                          next := none, onFail := some (spyFn tag) }], log := [] }
            0 fun r => { r with status := Status.rejected }) 0
            fun r => { r with value := err }) (tag, err)) := by
      have hg : getProm
          { proms := [{ value := .undef, status := .waiting, owed := none,
                        next := none, onFail := some (spyFn tag) }], log := [] } 0
          = some { value := .undef, status := .waiting, owed := none,
                   next := none, onFail := some (spyFn tag) } := rfl
      simp only [failableCb]
      rw [if_pos herr]
      rw [show n+3 = (n+2)+1 from rfl]
      rw [abandon_at_handler hg rfl rfl]
      simp only [spyFn, runProg]
    exact ⟨_, hstep, rfl, rfl⟩

/-- Concrete instantiation of the C5 theorem: the wrapped call returns the
promise synchronously; `(null, 42)` resolves it to `42`; `("fail", _)`
rejects it with `"fail"`. -/
theorem c5_adapter_witness :
    (∃ stR, promisifyCall (fun _ => .fires (.str "fail") .undef) [] 1 st0
      = .ok (0, stR)) ∧
    (∃ stF, failableCb 3 0 .nullV (.num 42)
        { proms := [{ value := .undef, status := .waiting, owed := some (spyFn 1),
                      next := some 1, onFail := none }, PromObj.init], log := [] }
      = .ok ((), stF) ∧
      stF.log = [(1, .num 42)] ∧
      (getProm stF 0).map (·.status) = some Status.resolved) ∧
    (∃ stF, failableCb 3 0 (.str "fail") .undef
        { proms := [{ value := .undef, status := .waiting, owed := none,
                      next := none, onFail := some (spyFn 2) }], log := [] }
      = .ok ((), stF) ∧
      stF.log = [(2, .str "fail")] ∧
      (getProm stF 0).map (·.status) = some Status.rejected) :=
  ⟨c5_adapter.1 (fun _ => .fires (.str "fail") .undef) [] 0 st0,
   c5_adapter.2.1 (.num 42) 1 0 rfl,
   c5_adapter.2.2 (.str "fail") .undef 2 0 rfl⟩
